import Mathlib

/-!
# Verification of the CLASSIC crash-log diagnostic pipeline

A shallow embedding of the crash-log scanning code (segment extraction,
header parsing, suspect-rule evaluation, FormID analysis, settings sweep,
FCX session cache, unsolved-log relocation) together with theorems that
settle the specification claims against it.

Strings are modelled as `List Char`; Python string primitives
(`startswith`, `in`, `count`, `strip`, `split`, `replace`, `ljust`) are
embedded as executable functions on character lists.
-/

namespace Classic

/-- A line (or string) of a crash log, as a list of characters. -/
abbrev Line := List Char

/-- Characters treated as whitespace by Python `str.strip` / `\s`. -/
def pySpace (c : Char) : Bool :=
  c = ' ' || c = '\t' || c = '\n' || c = '\r' || c = '\x0b' || c = '\x0c'

/-- Python `s.startswith(pat)`: `pat` is a prefix of `s`. -/
def pyStartsWith (s pat : Line) : Bool :=
  pat.isPrefixOf s

/-- Python `sub in s`: `sub` occurs as a contiguous substring of `s`. -/
def pyContains (s sub : Line) : Bool :=
  match s with
  | [] => sub.isPrefixOf ([] : Line)
  | _ :: t => sub.isPrefixOf s || pyContains t sub

/-- Python `s.strip()`: remove leading and trailing whitespace. -/
def pyStrip (s : Line) : Line :=
  ((s.dropWhile pySpace).reverse.dropWhile pySpace).reverse

/-- Python `s.replace(old, new, 1)`: replace the first occurrence of the
single character `old` by the string `new` (the code only replaces the
one-character separator `"|"`). -/
def pyReplaceOnceChar (s : Line) (old : Char) (new : Line) : Line :=
  match s with
  | [] => []
  | c :: t => if c = old then new ++ t else c :: pyReplaceOnceChar t old new

/-- Python slice `l[a:b]` for non-negative `a`, `b`. -/
def pySlice (a b : Nat) (l : List α) : List α :=
  (l.take b).drop a

/-- `parse_crash_header` (Parser.py): one linear scan over the lines,
overwriting each of the three fields on every line whose prefix matches;
empty results fall back to the sentinel `"UNKNOWN"`. -/
def parse_crash_header (crash_data : List Line) (crashgen_name game_root_name : Line) :
    Line × Line × Line :=
  let step := fun (acc : Line × Line × Line) (line : Line) =>
    let gv := if game_root_name ≠ [] ∧ pyStartsWith line game_root_name then pyStrip line else acc.1
    let cv := if pyStartsWith line crashgen_name then pyStrip line else acc.2.1
    let me := if pyStartsWith line "Unhandled exception".data then
        pyReplaceOnceChar line '|' ['\n'] else acc.2.2
    (gv, cv, me)
  let r := crash_data.foldl step ("UNKNOWN".data, "UNKNOWN".data, "UNKNOWN".data)
  (if r.1 = [] then "UNKNOWN".data else r.1,
   if r.2.1 = [] then "UNKNOWN".data else r.2.1,
   if r.2.2 = [] then "UNKNOWN".data else r.2.2)

/-- Field value described by "last match wins, post-processed by `f`,
absent or empty falls back to UNKNOWN". -/
def lastMatchField (p : Line → Prop) [DecidablePred p] (f : Line → Line) (cd : List Line) : Line :=
  match (cd.filter (fun l => decide (p l))).getLast? with
  | none => "UNKNOWN".data
  | some l => if f l = [] then "UNKNOWN".data else f l

theorem foldl_header_field (cd : List Line) (p : Line → Prop) [DecidablePred p]
    (f : Line → Line) (a : Line) :
    cd.foldl (fun acc line => if p line then f line else acc) a =
      (match (cd.filter (fun l => decide (p l))).getLast? with
        | none => a
        | some l => f l) := by
  induction cd generalizing a with
  | nil => rfl
  | cons h t ih =>
    simp only [List.foldl_cons, List.filter_cons]
    by_cases hp : p h
    · rw [if_pos hp, ih]
      rw [if_pos (show decide (p h) = true by simp [hp])]
      cases hfilter : t.filter (fun l => decide (p l)) with
      | nil => simp
      | cons x xs =>
        rw [List.getLast?_cons_cons]
        cases hlast : (x :: xs).getLast? with
        | none => simp at hlast
        | some y => rfl
    · rw [if_neg hp, ih]
      simp [hp]

/-- The three header fields are each computed by an independent
"last match wins" scan. -/
theorem parse_crash_header_eq (cd : List Line) (cg grn : Line) :
    parse_crash_header cd cg grn =
      (lastMatchField (fun l => grn ≠ [] ∧ pyStartsWith l grn) pyStrip cd,
       lastMatchField (fun l => pyStartsWith l cg) pyStrip cd,
       lastMatchField (fun l => pyStartsWith l "Unhandled exception".data)
         (fun l => pyReplaceOnceChar l '|' ['\n']) cd) := by
  unfold parse_crash_header
  have hsplit : ∀ (a b c : Line),
      cd.foldl (fun (acc : Line × Line × Line) (line : Line) =>
        (if grn ≠ [] ∧ pyStartsWith line grn then pyStrip line else acc.1,
         if pyStartsWith line cg then pyStrip line else acc.2.1,
         if pyStartsWith line "Unhandled exception".data then
           pyReplaceOnceChar line '|' ['\n'] else acc.2.2)) (a, b, c) =
      (cd.foldl (fun acc line => if grn ≠ [] ∧ pyStartsWith line grn then pyStrip line else acc) a,
       cd.foldl (fun acc line => if pyStartsWith line cg then pyStrip line else acc) b,
       cd.foldl (fun acc line => if pyStartsWith line "Unhandled exception".data then
         pyReplaceOnceChar line '|' ['\n'] else acc) c) := by
    induction cd with
    | nil => intro a b c; rfl
    | cons h t ih =>
      intro a b c
      simp only [List.foldl_cons]
      rw [ih]
  simp only [hsplit]
  refine congrArg₂ Prod.mk ?_ (congrArg₂ Prod.mk ?_ ?_)
  · rw [foldl_header_field cd (fun l => grn ≠ [] ∧ pyStartsWith l grn) pyStrip]
    unfold lastMatchField
    cases (cd.filter (fun l => decide (grn ≠ [] ∧ pyStartsWith l grn))).getLast? with
    | none => simp
    | some l => rfl
  · rw [foldl_header_field cd (fun l => pyStartsWith l cg) pyStrip]
    unfold lastMatchField
    cases (cd.filter (fun l => decide (pyStartsWith l cg = true))).getLast? with
    | none => simp
    | some l => rfl
  · rw [foldl_header_field cd (fun l => pyStartsWith l "Unhandled exception".data)
      (fun l => pyReplaceOnceChar l '|' ['\n'])]
    unfold lastMatchField
    cases (cd.filter (fun l =>
        decide (pyStartsWith l "Unhandled exception".data = true))).getLast? with
    | none => simp
    | some l => rfl

/-- C2, counterexample: on a log with two main-error lines, the code keeps
the LAST one (the loop overwrites `main_error` on every matching line),
not the first one the claim predicts. -/
theorem parse_crash_header_main_error_last_not_first :
    (parse_crash_header
        ["Unhandled exception A|x".data, "Unhandled exception B|y".data]
        "Buffout 4".data "Fallout".data).2.2 = "Unhandled exception B\ny".data ∧
      ("Unhandled exception B\ny".data : Line) ≠ "Unhandled exception A\nx".data := by
  constructor
  · rfl
  · decide

/-- C2, amended: all three header fields — game version, generator version
AND main error — take the last matching line ("last match wins" for every
field, main error included); the main-error line has its first `|`
separator replaced by a newline; a field with no matching line (or whose
processed value is empty) is the sentinel `"UNKNOWN"`. -/
theorem parse_crash_header_spec (cd : List Line) (cg grn : Line) :
    parse_crash_header cd cg grn =
      (lastMatchField (fun l => grn ≠ [] ∧ pyStartsWith l grn) pyStrip cd,
       lastMatchField (fun l => pyStartsWith l cg) pyStrip cd,
       lastMatchField (fun l => pyStartsWith l "Unhandled exception".data)
         (fun l => pyReplaceOnceChar l '|' ['\n']) cd) :=
  parse_crash_header_eq cd cg grn

/-! ## Settings Validator: `check_disabled_settings` (SettingsScanner.py) -/

/-- A Python configuration value as stored in the `crashgen` settings map
(`bool | int | str`). The embedding keeps the three runtime types apart so
that Python's identity test `value is False` is faithful: `0` and `""` are
falsy but are not the object `False`. -/
inductive PyVal where
  | bool (b : Bool)
  | int (n : Int)
  | str (s : Line)
  deriving DecidableEq

/-- Python `value is False`. -/
def isPyFalse : PyVal → Bool
  | .bool false => true
  | _ => false

/-- The notice emitted for a disabled setting. -/
def disabledNotice (settingName crashgenName : Line) : Line :=
  "* NOTICE : ".data ++ settingName ++ " is disabled in your ".data ++ crashgenName ++
    " settings, is this intentional? * \n-----\n".data

/-- `check_disabled_settings` (SettingsScanner.py): iterate the ordered
settings map; for every entry whose value `is False` and whose name is not
in the ignore set, append the notice to the report. -/
def check_disabled_settings (crashgen : List (Line × PyVal)) (crashgenName : Line)
    (report : List Line) (crashgen_ignore : List Line) : List Line :=
  if crashgen ≠ [] then
    crashgen.foldl (fun rep p =>
      if isPyFalse p.2 ∧ p.1 ∉ crashgen_ignore then
        rep ++ [disabledNotice p.1 crashgenName]
      else rep) report
  else report

theorem isPyFalse_iff (v : PyVal) : isPyFalse v = true ↔ v = PyVal.bool false := by
  cases v with
  | bool b => cases b <;> simp [isPyFalse]
  | int n => simp [isPyFalse]
  | str s => simp [isPyFalse]

theorem check_disabled_foldl (crashgen : List (Line × PyVal)) (cname : Line)
    (rep : List Line) (ign : List Line) :
    crashgen.foldl (fun rep p =>
      if isPyFalse p.2 ∧ p.1 ∉ ign then rep ++ [disabledNotice p.1 cname] else rep) rep =
    rep ++ crashgen.filterMap (fun p =>
      if p.2 = PyVal.bool false ∧ p.1 ∉ ign then some (disabledNotice p.1 cname) else none) := by
  induction crashgen generalizing rep with
  | nil => simp
  | cons h t ih =>
    simp only [List.foldl_cons, List.filterMap_cons]
    by_cases hv : h.2 = PyVal.bool false
    · by_cases hi : h.1 ∉ ign
      · rw [if_pos ⟨(isPyFalse_iff h.2).mpr hv, hi⟩, ih, if_pos ⟨hv, hi⟩]
        simp
      · rw [if_neg (by tauto), ih, if_neg (by tauto)]
    · have : ¬ isPyFalse h.2 = true := by
        rw [isPyFalse_iff]; exact hv
      rw [if_neg (by tauto), ih, if_neg (by tauto)]

/-- C10: the disabled-settings sweep emits its notice exactly for the
configuration keys whose value is the boolean `False` and whose name is
not ignored, in map order; falsy values that are not the boolean `False`
(the integer 0, the empty string) never trigger a notice, and an empty
configuration map emits nothing. -/
theorem check_disabled_settings_spec (crashgen : List (Line × PyVal)) (cname : Line)
    (rep : List Line) (ign : List Line) :
    check_disabled_settings crashgen cname rep ign =
      rep ++ crashgen.filterMap (fun p =>
        if p.2 = PyVal.bool false ∧ p.1 ∉ ign then some (disabledNotice p.1 cname)
        else none) := by
  unfold check_disabled_settings
  by_cases h : crashgen = []
  · simp [h]
  · rw [if_pos h, check_disabled_foldl]

/-! ## Session Validation Cache: `check_fcx_mode` / `reset_fcx_checks`
(FCXModeHandler.py)

The class-level state `(_fcx_checks_run, _main_files_result,
_game_files_result)` is written only inside the critical section guarded
by `_fcx_lock`, so a batch execution is modelled as a serialization of the
callers' critical sections: a schedule lists each caller's `fcx_mode` flag
in the order their critical sections acquire the lock. The external
computations `main_combined_result()` / `game_combined_result()` are
abstracted as the parameters `a`, `b`; `execCount` counts how many times
the expensive computation pair actually runs. -/

/-- The class-level FCX cache state, plus an execution counter for the
expensive computation. -/
structure FCXState where
  checksRun : Bool
  mainResult : Line
  gameResult : Line
  execCount : Nat
  deriving DecidableEq

/-- `reset_fcx_checks`: flag cleared, both memoized results cleared. -/
def resetFCX : FCXState := ⟨false, [], [], 0⟩

/-- One caller's critical section in `check_fcx_mode`: a disabled caller
(`fcx_mode` falsy) does not touch the shared state; an enabled caller
computes and stores the results only if `_fcx_checks_run` is still false. -/
def fcxStep (a b : Line) (s : FCXState) (enabled : Bool) : FCXState :=
  if enabled then
    if s.checksRun then s
    else ⟨true, a, b, s.execCount + 1⟩
  else s

/-- A whole batch: reset, then the serialized critical sections. -/
def fcxRun (a b : Line) (sched : List Bool) : FCXState :=
  sched.foldl (fcxStep a b) resetFCX

theorem fcxRun_cases (a b : Line) (sched : List Bool) :
    fcxRun a b sched = resetFCX ∨ fcxRun a b sched = ⟨true, a, b, 1⟩ := by
  unfold fcxRun
  induction sched using List.reverseRecOn with
  | nil => exact Or.inl rfl
  | append_singleton t e ih =>
    rw [List.foldl_append, List.foldl_cons, List.foldl_nil]
    rcases ih with h | h <;> rw [h] <;> cases e <;>
      simp [fcxStep, resetFCX] <;> tauto

theorem fcxRun_done_of_mem (a b : Line) (sched : List Bool) (h : true ∈ sched) :
    fcxRun a b sched = ⟨true, a, b, 1⟩ := by
  rcases fcxRun_cases a b sched with hc | hc
  · exfalso
    obtain ⟨pre, rest, rfl⟩ := List.append_of_mem h
    unfold fcxRun at hc
    rw [List.foldl_append, List.foldl_cons] at hc
    rcases fcxRun_cases a b pre with hp | hp <;> unfold fcxRun at hp <;> rw [hp] at hc
    · have : ∀ (s : FCXState) (l : List Bool), s.checksRun = true →
          (l.foldl (fcxStep a b) s).checksRun = true := by
        intro s l
        induction l generalizing s with
        | nil => exact fun h => h
        | cons x xs ih =>
          intro hs
          rw [List.foldl_cons]
          apply ih
          cases x <;> simp [fcxStep, hs]
      have h2 := this (fcxStep a b resetFCX true) rest (by simp [fcxStep, resetFCX])
      rw [hc] at h2
      simp [resetFCX] at h2
    · have : ∀ (s : FCXState) (l : List Bool), s.checksRun = true →
          (l.foldl (fcxStep a b) s).checksRun = true := by
        intro s l
        induction l generalizing s with
        | nil => exact fun h => h
        | cons x xs ih =>
          intro hs
          rw [List.foldl_cons]
          apply ih
          cases x <;> simp [fcxStep, hs]
      have h2 := this (fcxStep a b ⟨true, a, b, 1⟩ true) rest (by simp [fcxStep])
      rw [hc] at h2
      simp [resetFCX] at h2
  · exact hc

/-- C9: within one batch (between two `reset_fcx_checks`), over every
serialization of the callers' lock-guarded critical sections, the
expensive computation runs at most once; it runs exactly once as soon as
at least one enabled caller takes part (and not at all when none does);
and after any enabled caller's critical section, every later observation
of the shared state — hence every caller's memoized read — yields the
same result pair `(a, b)`. -/
theorem check_fcx_mode_once (a b : Line) (sched : List Bool) :
    (fcxRun a b sched).execCount ≤ 1 ∧
    (true ∈ sched → (fcxRun a b sched).execCount = 1) ∧
    (true ∉ sched → (fcxRun a b sched).execCount = 0) ∧
    (∀ pre post : List Bool,
      (fcxRun a b (pre ++ true :: post)).mainResult = a ∧
      (fcxRun a b (pre ++ true :: post)).gameResult = b) := by
  refine ⟨?_, ?_, ?_, ?_⟩
  · rcases fcxRun_cases a b sched with h | h <;> rw [h] <;> simp [resetFCX]
  · intro hmem
    rw [fcxRun_done_of_mem a b sched hmem]
  · intro hnot
    have : fcxRun a b sched = resetFCX := by
      unfold fcxRun
      induction sched using List.reverseRecOn with
      | nil => rfl
      | append_singleton t e ih =>
        have ht : true ∉ t := fun hc => hnot (List.mem_append_left _ hc)
        rw [List.foldl_append, ih ht, List.foldl_cons, List.foldl_nil]
        cases e with
        | false => rfl
        | true => exact absurd (List.mem_append_right _ (List.mem_singleton.mpr rfl)) hnot
    rw [this]
    rfl
  · intro pre post
    have : true ∈ pre ++ true :: post := List.mem_append_right _ (List.mem_cons_self _ _)
    rw [fcxRun_done_of_mem a b _ this]
    exact ⟨rfl, rfl⟩

/-- C9 witness: a concrete batch of three callers (disabled, enabled,
enabled): the computation runs exactly once and the memoized pair read
after the second caller's critical section is `(a, b)`. -/
theorem check_fcx_mode_once_witness :
    (fcxRun "A".data "B".data [false, true, true]).execCount = 1 ∧
    (fcxRun "A".data "B".data ([false] ++ true :: [true])).mainResult = "A".data ∧
    (fcxRun "A".data "B".data ([false] ++ true :: [true])).gameResult = "B".data := by
  have h := check_fcx_mode_once "A".data "B".data [false, true, true]
  exact ⟨h.2.1 (by decide), (h.2.2.2 [false] [true]).1, (h.2.2.2 [false] [true]).2⟩

/-! ## Suspect Rule Engine: `suspect_scan_stack` (SuspectScanner.py) -/

/-- Helper for `pyCount`: scan the text one character at a time; `skip`
records how many characters of the last counted occurrence are still to
be consumed, making the count non-overlapping. -/
def pyCountGo (sub : Line) : Line → Nat → Nat
  | [], _ => 0
  | c :: t, skip =>
    if 0 < skip then pyCountGo sub t (skip - 1)
    else if sub.isPrefixOf (c :: t) then 1 + pyCountGo sub t (sub.length - 1)
    else pyCountGo sub t 0

/-- Python `s.count(sub)`: number of non-overlapping occurrences scanning
left to right; an empty pattern counts `len(s) + 1`. -/
def pyCount (s sub : Line) : Nat :=
  match sub with
  | [] => s.length + 1
  | _ :: _ => pyCountGo sub s 0

/-- Python `s.split(sep, 1)` for a non-empty separator, when the separator
occurs: the parts before and after its first occurrence. `none` models the
no-occurrence outcome (whose two-variable unpacking raises in Python). -/
def pySplitOnce (s sep : Line) : Option (Line × Line) :=
  match s with
  | [] => if sep.isPrefixOf ([] : Line) then some ([], []) else none
  | c :: t =>
    if sep.isPrefixOf (c :: t) then some ([], (c :: t).drop sep.length)
    else
      match pySplitOnce t sep with
      | some (pre, post) => some (c :: pre, post)
      | none => none

/-- Python `s.isdecimal()` restricted to ASCII digits. -/
def isDec (l : Line) : Bool :=
  !l.isEmpty && l.all Char.isDigit

/-- Python `int(s)` on a decimal digit string. -/
def decToNat (l : Line) : Nat :=
  l.foldl (fun n c => 10 * n + (c.toNat - 48)) 0

/-- Python `s.ljust(w, fill)`. -/
def pyLJust (s : Line) (w : Nat) (fill : Char) : Line :=
  s ++ List.replicate (w - s.length) fill

/-- The per-rule match-state dictionary of `suspect_scan_stack`. -/
structure MatchStatus where
  hasRequiredItem : Bool
  errorReqFound : Bool
  errorOptFound : Bool
  stackFound : Bool
  deriving DecidableEq

/-- All four flags start false. -/
def initMatchStatus : MatchStatus := ⟨false, false, false, false⟩

/-- `_process_signal`: returns (should-stop, updated match status). -/
def process_signal (signal me cs : Line) (ms : MatchStatus) : Bool × MatchStatus :=
  if pyContains signal ['|'] = false then
    (false, if pyContains cs signal then { ms with stackFound := true } else ms)
  else
    match pySplitOnce signal ['|'] with
    | none => (false, ms)
    | some (md, sstr) =>
      if md = "ME-REQ".data then
        (false, { ms with
          hasRequiredItem := true,
          errorReqFound := if pyContains me sstr then true else ms.errorReqFound })
      else if md = "ME-OPT".data then
        (false, if pyContains me sstr then { ms with errorOptFound := true } else ms)
      else if md = "NOT".data then
        (pyContains cs sstr, ms)
      else if isDec md then
        (false, if decToNat md ≤ pyCount cs sstr then { ms with stackFound := true } else ms)
      else
        (false, ms)

/-- The inner signal loop: process signals in order, stopping with `none`
when a signal requests a skip (matched NOT condition). -/
def process_signals (signals : List Line) (me cs : Line) (ms : MatchStatus) :
    Option MatchStatus :=
  match signals with
  | [] => some ms
  | sg :: rest =>
    let r := process_signal sg me cs ms
    if r.1 then none else process_signals rest me cs r.2

/-- `_is_suspect_match`. -/
def is_suspect_match (ms : MatchStatus) : Bool :=
  if ms.hasRequiredItem then ms.errorReqFound else ms.errorOptFound || ms.stackFound

/-- The formatted report entry of `_add_suspect_to_report`. -/
def suspectEntry (errorName errorSeverity : Line) (w : Nat) : Line :=
  "# Checking for ".data ++ pyLJust errorName w '.' ++
    " SUSPECT FOUND! > Severity : ".data ++ errorSeverity ++ " # \n-----\n".data

/-- `suspect_scan_stack`: per rule, split the key into severity and name
(`none` models the unpacking error on a malformed key), run the signal
loop, skip the rule when it requests so, and append its entry when the
final match status qualifies. -/
def suspect_scan_stack (me cs : Line) (rules : List (Line × List Line)) (w : Nat)
    (report : List Line) (anyFound : Bool) : Option (List Line × Bool) :=
  match rules with
  | [] => some (report, anyFound)
  | (key, sigs) :: rest =>
    match pySplitOnce key " | ".data with
    | none => none
    | some (sev, nm) =>
      match process_signals sigs me cs initMatchStatus with
      | none => suspect_scan_stack me cs rest w report anyFound
      | some ms =>
        if is_suspect_match ms then
          suspect_scan_stack me cs rest w (report ++ [suspectEntry nm sev w]) true
        else
          suspect_scan_stack me cs rest w report anyFound

theorem pyContains_append_cons (x y : Line) (c : Char) :
    pyContains (x ++ c :: y) [c] = true := by
  induction x with
  | nil => simp [pyContains, List.isPrefixOf]
  | cons a t ih => simp [pyContains, ih]

theorem pySplitOnce_append (md s : Line) (c : Char) (h : ∀ a ∈ md, a ≠ c) :
    pySplitOnce (md ++ c :: s) [c] = some (md, s) := by
  induction md with
  | nil => simp [pySplitOnce, List.isPrefixOf]
  | cons a t ih =>
    have ha : a ≠ c := h a (List.mem_cons_self _ _)
    have hpre : ([c].isPrefixOf (a :: (t ++ c :: s))) = false := by
      simp [List.isPrefixOf]
      exact fun hc => absurd hc.symm ha
    simp only [List.cons_append, pySplitOnce, List.append_eq, hpre, Bool.false_eq_true,
      if_false]
    rw [ih (fun x hx => h x (List.mem_cons_of_mem _ hx))]

theorem isDec_char_ne_pipe (md : Line) (h : isDec md = true) : ∀ a ∈ md, a ≠ '|' := by
  intro a ha heq
  have hall := (Bool.and_eq_true _ _ |>.mp h).2
  rw [List.all_eq_true] at hall
  have := hall a ha
  rw [heq] at this
  exact absurd this (by decide)

theorem isDec_ne_mod (md : Line) (h : isDec md = true) :
    md ≠ "ME-REQ".data ∧ md ≠ "ME-OPT".data ∧ md ≠ "NOT".data := by
  refine ⟨?_, ?_, ?_⟩ <;> intro heq <;> rw [heq] at h <;> exact absurd h (by decide)

/-- A numeric signal `N|s` updates only `stackFound`, comparing the
callstack occurrence count against `N`. -/
theorem process_signal_numeric (md s me cs : Line) (ms : MatchStatus)
    (hdec : isDec md = true) :
    process_signal (md ++ '|' :: s) me cs ms =
      (false, if decToNat md ≤ pyCount cs s then { ms with stackFound := true } else ms) := by
  obtain ⟨h1, h2, h3⟩ := isDec_ne_mod md hdec
  unfold process_signal
  rw [pyContains_append_cons md s '|']
  simp only [Bool.true_eq_false, if_false]
  rw [pySplitOnce_append md s '|' (isDec_char_ne_pipe md hdec)]
  simp [h1, h2, h3, hdec]

/-- A `NOT|s` signal whose string occurs in the callstack makes the signal
loop abort, whatever came before or after it. -/
theorem process_signals_not_aborts (sigs : List Line) (me cs s : Line) (ms : MatchStatus)
    (hsig : ("NOT".data ++ '|' :: s) ∈ sigs) (hmatch : pyContains cs s = true) :
    process_signals sigs me cs ms = none := by
  induction sigs generalizing ms with
  | nil => exact absurd hsig (List.not_mem_nil _)
  | cons sg rest ih =>
    rcases List.mem_cons.mp hsig with heq | hmem
    · have hps : process_signal sg me cs ms = (pyContains cs s, ms) := by
        rw [← heq]
        unfold process_signal
        rw [pyContains_append_cons "NOT".data s '|']
        simp only [Bool.true_eq_false, if_false]
        rw [pySplitOnce_append "NOT".data s '|' (by decide)]
        simp
      unfold process_signals
      rw [hps]
      simp [hmatch]
    · unfold process_signals
      cases hr : (process_signal sg me cs ms).1 with
      | true => simp [hr]
      | false => simp [hr, ih _ hmem]

/-- C5: a rule containing a `NOT|s` signal whose string `s` occurs in the
callstack text is disqualified: deleting it from the rule list leaves the
scan's whole output (report and found-flag) unchanged, whatever the rule's
other signals are. -/
theorem suspect_scan_stack_not_excluded
    (me cs : Line) (w : Nat) (key : Line) (sigs : List Line) (s : Line)
    (rulesPre rulesPost : List (Line × List Line)) (report : List Line) (anyFound : Bool)
    (hsig : ("NOT".data ++ '|' :: s) ∈ sigs)
    (hmatch : pyContains cs s = true)
    (hkey : ∃ sv nm, pySplitOnce key " | ".data = some (sv, nm)) :
    suspect_scan_stack me cs (rulesPre ++ (key, sigs) :: rulesPost) w report anyFound =
      suspect_scan_stack me cs (rulesPre ++ rulesPost) w report anyFound := by
  induction rulesPre generalizing report anyFound with
  | nil =>
    obtain ⟨sv, nm, hk⟩ := hkey
    simp only [List.nil_append]
    conv_lhs => rw [suspect_scan_stack]
    rw [hk, process_signals_not_aborts sigs me cs s initMatchStatus hsig hmatch]
  | cons r rs ih =>
    obtain ⟨rkey, rsigs⟩ := r
    simp only [List.cons_append]
    unfold suspect_scan_stack
    cases hk : pySplitOnce rkey " | ".data with
    | none => rfl
    | some p =>
      obtain ⟨sv, nm⟩ := p
      cases hps : process_signals rsigs me cs initMatchStatus with
      | none => exact ih report anyFound
      | some ms =>
        by_cases hm : is_suspect_match ms = true
        · simp only [hm, if_true]
          exact ih _ _
        · simp only [hm, if_false]
          exact ih report anyFound

/-- C5 witness: a concrete rule whose plain signal matches but whose
`NOT|ab` signal also matches contributes nothing to the report. -/
theorem suspect_scan_stack_not_excluded_witness :
    suspect_scan_stack "err".data "xx ab yy".data
        [("LOW | Bar".data, ["yy".data, "NOT|ab".data])] 6 [] false = some ([], false) := by
  have h := suspect_scan_stack_not_excluded "err".data "xx ab yy".data 6
    "LOW | Bar".data ["yy".data, "NOT|ab".data] "ab".data [] [] [] false
    (by decide) (by decide) ⟨"LOW".data, "Bar".data, by decide⟩
  simpa using h

/-- A signal that matches nothing on this input: a plain or `NOT` string
absent from the callstack, an `ME-REQ`/`ME-OPT` string absent from the
main error, a numeric signal below its threshold, or an unrecognised
modifier (a no-op in `_process_signal`). -/
def signalInert (me cs sg : Line) : Bool :=
  if pyContains sg ['|'] = false then !(pyContains cs sg)
  else
    match pySplitOnce sg ['|'] with
    | none => true
    | some (md, r) =>
      if md = "ME-REQ".data then !(pyContains me r)
      else if md = "ME-OPT".data then !(pyContains me r)
      else if md = "NOT".data then !(pyContains cs r)
      else if isDec md then decide (pyCount cs r < decToNat md)
      else true

/-- Whether a signal carries the `ME-REQ` modifier. -/
def isMeReq (sg : Line) : Bool :=
  if pyContains sg ['|'] = false then false
  else
    match pySplitOnce sg ['|'] with
    | none => false
    | some (md, _) => decide (md = "ME-REQ".data)

/-- An inert signal without the `ME-REQ` modifier leaves the match status
untouched and never aborts the loop. -/
theorem process_signal_inert_nonreq (sg me cs : Line) (ms : MatchStatus)
    (hin : signalInert me cs sg = true) (hnr : isMeReq sg = false) :
    process_signal sg me cs ms = (false, ms) := by
  unfold process_signal
  unfold signalInert at hin
  unfold isMeReq at hnr
  by_cases h0 : pyContains sg ['|'] = false
  · rw [if_pos h0] at hin ⊢
    have hc : pyContains cs sg = false := by simpa using hin
    simp [hc]
  · rw [if_neg h0] at hin hnr ⊢
    cases hsp : pySplitOnce sg ['|'] with
    | none => rfl
    | some p =>
      obtain ⟨md, r⟩ := p
      rw [hsp] at hin hnr
      dsimp only at hin hnr ⊢
      have h1 : ¬ md = "ME-REQ".data := by simpa using hnr
      rw [if_neg h1] at hin ⊢
      by_cases h2 : md = "ME-OPT".data
      · rw [if_pos h2] at hin ⊢
        have hc : pyContains me r = false := by simpa using hin
        simp [hc]
      · rw [if_neg h2] at hin ⊢
        by_cases h3 : md = "NOT".data
        · rw [if_pos h3] at hin ⊢
          have hc : pyContains cs r = false := by simpa using hin
          rw [hc]
        · rw [if_neg h3] at hin ⊢
          by_cases h4 : isDec md = true
          · rw [if_pos h4] at hin ⊢
            have hc : pyCount cs r < decToNat md := by simpa using hin
            rw [if_neg (by omega)]
          · rw [if_neg h4]

/-- An inert `ME-REQ` signal still sets `has_required_item` by mere
presence, leaving every other flag untouched. -/
theorem process_signal_inert_req (sg me cs : Line) (ms : MatchStatus)
    (hin : signalInert me cs sg = true) (hr : isMeReq sg = true) :
    process_signal sg me cs ms = (false, { ms with hasRequiredItem := true }) := by
  unfold process_signal
  unfold signalInert at hin
  unfold isMeReq at hr
  by_cases h0 : pyContains sg ['|'] = false
  · rw [if_pos h0] at hr
    exact absurd hr (by simp)
  · rw [if_neg h0] at hin hr ⊢
    cases hsp : pySplitOnce sg ['|'] with
    | none =>
      rw [hsp] at hr
      exact absurd hr (by simp)
    | some p =>
      obtain ⟨md, r⟩ := p
      rw [hsp] at hin hr
      dsimp only at hin hr ⊢
      have h1 : md = "ME-REQ".data := by simpa using hr
      rw [if_pos h1] at hin ⊢
      have hcm : pyContains me r = false := by simpa using hin
      simp [hcm]

/-- Running the signal loop over inert signals only records whether any
`ME-REQ` signal was present. -/
theorem process_signals_inert (sigs : List Line) (me cs : Line) (ms : MatchStatus)
    (hin : ∀ sg ∈ sigs, signalInert me cs sg = true) :
    process_signals sigs me cs ms =
      some { ms with hasRequiredItem := ms.hasRequiredItem || sigs.any isMeReq } := by
  induction sigs generalizing ms with
  | nil => simp [process_signals]
  | cons sg rest ih =>
    have hsg := hin sg (List.mem_cons_self _ _)
    have hrest : ∀ x ∈ rest, signalInert me cs x = true :=
      fun x hx => hin x (List.mem_cons_of_mem _ hx)
    unfold process_signals
    by_cases hr : isMeReq sg = true
    · rw [process_signal_inert_req sg me cs ms hsg hr]
      dsimp only
      rw [ih _ hrest]
      simp [hr]
    · have hnr : isMeReq sg = false := by
        cases hq : isMeReq sg
        · rfl
        · exact absurd hq hr
      rw [process_signal_inert_nonreq sg me cs ms hsg hnr]
      dsimp only
      rw [ih _ hrest]
      simp [hnr]

/-- The signal loop distributes over list concatenation. -/
theorem process_signals_append (a b : List Line) (me cs : Line) (ms : MatchStatus) :
    process_signals (a ++ b) me cs ms =
      match process_signals a me cs ms with
      | none => none
      | some ms2 => process_signals b me cs ms2 := by
  induction a generalizing ms with
  | nil => rfl
  | cons sg rest ih =>
    simp only [List.cons_append]
    show (if (process_signal sg me cs ms).1 = true then none
        else process_signals (rest ++ b) me cs (process_signal sg me cs ms).2) =
      match (if (process_signal sg me cs ms).1 = true then none
        else process_signals rest me cs (process_signal sg me cs ms).2) with
      | none => none
      | some ms2 => process_signals b me cs ms2
    by_cases h : (process_signal sg me cs ms).1 = true
    · simp only [if_pos h]
    · simp only [if_neg h]
      rw [ih]

/-- C6, counterexample: the rule `[ME-REQ|zz, 2|ab]` is within the claim's
scope on this input — its only potentially-matching signal is `2|ab`
(`zz` is absent from the main error, so the `ME-REQ` signal does not
match, and there is no NOT or plain match) — and the callstack contains
`ab` exactly `N = 2` times, yet the rule is NOT reported: the mere
presence of the `ME-REQ` signal sets `has_required_item`, making the
verdict `error_req_found = False`. -/
theorem suspect_scan_stack_min_count_false :
    pyContains "err".data "zz".data = false ∧
    pyCount "x ab y ab z".data "ab".data = 2 ∧
    suspect_scan_stack "err".data "x ab y ab z".data
        [("HIGH | Foo".data, ["ME-REQ|zz".data, "2|ab".data])] 5 [] false =
      some ([], false) := by
  refine ⟨by decide, by decide, by decide⟩

/-- C6, amended: for a rule whose only potentially-matching signal is a
single numeric signal `N|s` (`N ≥ 1`), every other signal being inert
(non-matching) on this input: (a) when the rule contains no `ME-REQ`
signal at all, a callstack containing `s` exactly `N - 1` times
(non-overlapping count) leaves the report unchanged and exactly `N` times
appends the rule's entry and sets the found flag; (b) when the rule
contains any `ME-REQ` signal — even a non-matching one — the rule is
never reported, whatever the count, because the presence of `ME-REQ`
makes the verdict depend solely on main-error matches. -/
theorem suspect_scan_stack_min_count_general
    (me cs : Line) (w : Nat) (key sv nm md s : Line) (N : Nat)
    (pre post : List Line) (report : List Line) (anyFound : Bool)
    (hkey : pySplitOnce key " | ".data = some (sv, nm))
    (hdec : isDec md = true) (hN : decToNat md = N) (hpos : 1 ≤ N)
    (hinert : ∀ sg ∈ pre ++ post, signalInert me cs sg = true) :
    ((∀ sg ∈ pre ++ post, isMeReq sg = false) →
      (pyCount cs s = N - 1 →
        suspect_scan_stack me cs [(key, pre ++ (md ++ '|' :: s) :: post)] w report anyFound =
          some (report, anyFound)) ∧
      (pyCount cs s = N →
        suspect_scan_stack me cs [(key, pre ++ (md ++ '|' :: s) :: post)] w report anyFound =
          some (report ++ [suspectEntry nm sv w], true))) ∧
    ((∃ sg, sg ∈ pre ++ post ∧ isMeReq sg = true) →
      suspect_scan_stack me cs [(key, pre ++ (md ++ '|' :: s) :: post)] w report anyFound =
        some (report, anyFound)) := by
  have hpre : ∀ sg ∈ pre, signalInert me cs sg = true :=
    fun sg h => hinert sg (List.mem_append_left _ h)
  have hpost : ∀ sg ∈ post, signalInert me cs sg = true :=
    fun sg h => hinert sg (List.mem_append_right _ h)
  have hps : process_signals (pre ++ (md ++ '|' :: s) :: post) me cs initMatchStatus =
      some ⟨pre.any isMeReq || post.any isMeReq, false, false,
        decide (N ≤ pyCount cs s)⟩ := by
    rw [process_signals_append]
    rw [process_signals_inert pre me cs initMatchStatus hpre]
    unfold process_signals
    rw [process_signal_numeric md s me cs _ hdec]
    dsimp only
    rw [hN]
    by_cases hc : N ≤ pyCount cs s
    · rw [if_pos hc]
      rw [process_signals_inert post me cs _ hpost]
      simp [initMatchStatus, hc]
    · rw [if_neg hc]
      rw [process_signals_inert post me cs _ hpost]
      simp [initMatchStatus, hc]
  constructor
  · intro hnoreq
    have hpa : pre.any isMeReq = false := by
      rw [List.any_eq_false]
      intro x hx
      rw [hnoreq x (List.mem_append_left _ hx)]
      simp
    have hpb : post.any isMeReq = false := by
      rw [List.any_eq_false]
      intro x hx
      rw [hnoreq x (List.mem_append_right _ hx)]
      simp
    constructor
    · intro hcount
      unfold suspect_scan_stack
      rw [hkey, hps]
      dsimp only
      have hver : is_suspect_match ⟨pre.any isMeReq || post.any isMeReq, false, false,
          decide (N ≤ pyCount cs s)⟩ = false := by
        unfold is_suspect_match
        rw [hpa, hpb, hcount]
        simp
        omega
      rw [hver]
      simp [suspect_scan_stack]
    · intro hcount
      unfold suspect_scan_stack
      rw [hkey, hps]
      dsimp only
      have hver : is_suspect_match ⟨pre.any isMeReq || post.any isMeReq, false, false,
          decide (N ≤ pyCount cs s)⟩ = true := by
        unfold is_suspect_match
        rw [hpa, hpb, hcount]
        simp
      rw [hver]
      simp [suspect_scan_stack]
  · rintro ⟨sg, hmem, hr⟩
    have hany : (pre ++ post).any isMeReq = true := List.any_eq_true.mpr ⟨sg, hmem, hr⟩
    rw [List.any_append] at hany
    unfold suspect_scan_stack
    rw [hkey, hps]
    dsimp only
    have hver : is_suspect_match ⟨pre.any isMeReq || post.any isMeReq, false, false,
        decide (N ≤ pyCount cs s)⟩ = false := by
      unfold is_suspect_match
      rw [hany]
      simp
    rw [hver]
    simp [suspect_scan_stack]

/-- C6 witness: rule `[ME-OPT|zz, 2|ab, NOT|qq]` with both extra signals
non-matching: one occurrence of `ab` does not trigger it, two occurrences
do; the same rule with a non-matching `ME-REQ|zz` added never triggers. -/
theorem suspect_scan_stack_min_count_general_witness :
    suspect_scan_stack "err".data "x ab y".data
        [("HIGH | Foo".data, ["ME-OPT|zz".data, "2|ab".data, "NOT|qq".data])] 5 [] false =
      some ([], false) ∧
    suspect_scan_stack "err".data "x ab y ab z".data
        [("HIGH | Foo".data, ["ME-OPT|zz".data, "2|ab".data, "NOT|qq".data])] 5 [] false =
      some ([suspectEntry "Foo".data "HIGH".data 5], true) ∧
    suspect_scan_stack "err".data "x ab y ab z".data
        [("HIGH | Foo".data, ["ME-REQ|zz".data, "2|ab".data])] 5 [] false =
      some ([], false) := by
  have h1 := suspect_scan_stack_min_count_general "err".data "x ab y".data 5
    "HIGH | Foo".data "HIGH".data "Foo".data "2".data "ab".data 2
    ["ME-OPT|zz".data] ["NOT|qq".data] [] false
    (by decide) (by decide) (by decide) (by decide) (by decide)
  have h2 := suspect_scan_stack_min_count_general "err".data "x ab y ab z".data 5
    "HIGH | Foo".data "HIGH".data "Foo".data "2".data "ab".data 2
    ["ME-OPT|zz".data] ["NOT|qq".data] [] false
    (by decide) (by decide) (by decide) (by decide) (by decide)
  have h3 := suspect_scan_stack_min_count_general "err".data "x ab y ab z".data 5
    "HIGH | Foo".data "HIGH".data "Foo".data "2".data "ab".data 2
    ["ME-REQ|zz".data] [] [] false
    (by decide) (by decide) (by decide) (by decide) (by decide)
  exact ⟨(h1.1 (by decide)).1 (by decide), (h2.1 (by decide)).2 (by decide),
    h3.2 ⟨"ME-REQ|zz".data, by decide, by decide⟩⟩

/-! ## FormID Analyzer: `extract_formids` / `formid_match` (FormIDAnalyzer.py) -/

/-- One character of the regex class `[0-9A-F]` under `re.IGNORECASE`,
combined with the `.upper()` applied to the matched group: accepts a hex
digit and returns it uppercased (digits and `A`–`F` unchanged, `a`–`f`
mapped to `A`–`F`). -/
def hexUp (c : Char) : Option Char :=
  if c.isDigit then some c
  else if 'A' ≤ c ∧ c ≤ 'F' then some c
  else if c = 'a' then some 'A'
  else if c = 'b' then some 'B'
  else if c = 'c' then some 'C'
  else if c = 'd' then some 'D'
  else if c = 'e' then some 'E'
  else if c = 'f' then some 'F'
  else none

/-- Match exactly `n` hex digits, returning them uppercased. -/
def takeHexUp : Nat → Line → Option Line
  | 0, _ => some []
  | _ + 1, [] => none
  | n + 1, c :: t =>
    match hexUp c with
    | some d => (takeHexUp n t).map (fun r => d :: r)
    | none => none

/-- Consume a literal pattern case-insensitively (`re.IGNORECASE`),
returning the rest of the line. -/
def matchCI : Line → Line → Option Line
  | [], s => some s
  | _ :: _, [] => none
  | p :: ps, c :: cs => if p.toLower = c.toLower then matchCI ps cs else none

/-- The anchored search of `formid_pattern`
(`^\s*Form ID:\s*0x([0-9A-F]{8})`, case-insensitive): leading whitespace,
the form-id label, optional whitespace, the `0x` radix tag, then eight hex
digits whose uppercased text is the captured value. -/
def matchFormidLine (line : Line) : Option Line :=
  match matchCI "form id:".data (line.dropWhile pySpace) with
  | none => none
  | some r1 =>
    match matchCI "0x".data (r1.dropWhile pySpace) with
    | none => none
    | some r2 => takeHexUp 8 r2

/-- `extract_formids`: collect `"Form ID: <8-hex>"` for every matching
callstack line whose value does not start with `FF`. -/
def extract_formids (segment_callstack : List Line) : List Line :=
  match segment_callstack with
  | [] => []
  | _ =>
    segment_callstack.foldl (fun acc line =>
      match matchFormidLine line with
      | some h =>
        if pyStartsWith h "FF".data then acc else acc ++ ["Form ID: ".data ++ h]
      | none => acc) []

theorem hexUp_upper (c d : Char) (h : hexUp c = some d) :
    d.isDigit = true ∨ ('A' ≤ d ∧ d ≤ 'F') := by
  unfold hexUp at h
  by_cases h1 : c.isDigit = true
  · rw [if_pos h1] at h
    exact Or.inl (Option.some.inj h ▸ h1)
  rw [if_neg h1] at h
  by_cases h2 : 'A' ≤ c ∧ c ≤ 'F'
  · rw [if_pos h2] at h
    exact Or.inr (Option.some.inj h ▸ h2)
  rw [if_neg h2] at h
  by_cases h3 : c = 'a'
  · rw [if_pos h3] at h; rw [← Option.some.inj h]; right; exact ⟨by decide, by decide⟩
  rw [if_neg h3] at h
  by_cases h4 : c = 'b'
  · rw [if_pos h4] at h; rw [← Option.some.inj h]; right; exact ⟨by decide, by decide⟩
  rw [if_neg h4] at h
  by_cases h5 : c = 'c'
  · rw [if_pos h5] at h; rw [← Option.some.inj h]; right; exact ⟨by decide, by decide⟩
  rw [if_neg h5] at h
  by_cases h6 : c = 'd'
  · rw [if_pos h6] at h; rw [← Option.some.inj h]; right; exact ⟨by decide, by decide⟩
  rw [if_neg h6] at h
  by_cases h7 : c = 'e'
  · rw [if_pos h7] at h; rw [← Option.some.inj h]; right; exact ⟨by decide, by decide⟩
  rw [if_neg h7] at h
  by_cases h8 : c = 'f'
  · rw [if_pos h8] at h; rw [← Option.some.inj h]; right; exact ⟨by decide, by decide⟩
  rw [if_neg h8] at h
  exact absurd h (by simp)

theorem takeHexUp_upper (n : Nat) (s h : Line) (hm : takeHexUp n s = some h) :
    ∀ c ∈ h, c.isDigit = true ∨ ('A' ≤ c ∧ c ≤ 'F') := by
  induction n generalizing s h with
  | zero =>
    unfold takeHexUp at hm
    rw [← Option.some.inj hm]
    intro c hc
    exact absurd hc (List.not_mem_nil c)
  | succ m ih =>
    cases s with
    | nil => exact absurd hm (by simp [takeHexUp])
    | cons x t =>
      unfold takeHexUp at hm
      cases hx : hexUp x with
      | none => rw [hx] at hm; exact absurd hm (by simp)
      | some d =>
        rw [hx] at hm
        cases ht : takeHexUp m t with
        | none => rw [ht] at hm; exact absurd hm (by simp)
        | some r =>
          rw [ht] at hm
          have hm2 : d :: r = h := by simpa using hm
          intro c hc
          rw [← hm2] at hc
          rcases List.mem_cons.mp hc with rfl | hcr
          · exact hexUp_upper x c hx
          · exact ih t r ht c hcr

theorem extract_formids_foldl (seg : List Line) (acc : List Line) :
    seg.foldl (fun acc line =>
      match matchFormidLine line with
      | some h =>
        if pyStartsWith h "FF".data then acc else acc ++ ["Form ID: ".data ++ h]
      | none => acc) acc =
    acc ++ seg.filterMap (fun line =>
      match matchFormidLine line with
      | some h =>
        if pyStartsWith h "FF".data then none else some ("Form ID: ".data ++ h)
      | none => none) := by
  induction seg generalizing acc with
  | nil => simp
  | cons l t ih =>
    simp only [List.foldl_cons, List.filterMap_cons]
    cases hm : matchFormidLine l with
    | none => rw [ih]
    | some h =>
      by_cases hff : pyStartsWith h "FF".data = true
      · simp only [hm, hff, if_true]
        rw [ih]
      · simp only [hm, hff, if_false]
        rw [ih]
        simp

/-- C7: FormID extraction (a) emits, in order, exactly one
`"Form ID: <value>"` entry per callstack line matching the form-id
pattern whose uppercased 8-hex value does not start with `FF`, dropping
every `FF`-prefixed match; (b) every captured value consists of uppercase
hex characters only; (c) a line that does not begin, after leading
whitespace, with the form-id label yields nothing. -/
theorem extract_formids_spec (seg : List Line) :
    (extract_formids seg = seg.filterMap (fun line =>
      match matchFormidLine line with
      | some h =>
        if pyStartsWith h "FF".data then none else some ("Form ID: ".data ++ h)
      | none => none)) ∧
    (∀ line h, matchFormidLine line = some h →
      ∀ c ∈ h, c.isDigit = true ∨ ('A' ≤ c ∧ c ≤ 'F')) ∧
    (∀ line, matchCI "form id:".data (line.dropWhile pySpace) = none →
      matchFormidLine line = none) := by
  refine ⟨?_, ?_, ?_⟩
  · cases hseg : seg with
    | nil => rfl
    | cons l t =>
      rw [← hseg]
      have : extract_formids seg = seg.foldl (fun acc line =>
          match matchFormidLine line with
          | some h =>
            if pyStartsWith h "FF".data then acc else acc ++ ["Form ID: ".data ++ h]
          | none => acc) [] := by
        rw [hseg]; rfl
      rw [this, extract_formids_foldl seg []]
      simp
  · intro line h hm c hc
    unfold matchFormidLine at hm
    cases h1 : matchCI "form id:".data (line.dropWhile pySpace) with
    | none => rw [h1] at hm; exact absurd hm (by simp)
    | some r1 =>
      rw [h1] at hm
      dsimp only at hm
      cases h2 : matchCI "0x".data (r1.dropWhile pySpace) with
      | none => rw [h2] at hm; exact absurd hm (by simp)
      | some r2 =>
        rw [h2] at hm
        dsimp only at hm
        exact takeHexUp_upper 8 r2 h hm c hc
  · intro line hnone
    unfold matchFormidLine
    rw [hnone]

/-- C7 witness: a matching line (lowercase hex, `FF` filter), a value
character, and a label-less line, all concrete. -/
theorem extract_formids_spec_witness :
    extract_formids ["  Form ID: 0x0012abCD".data] = ["Form ID: 0012ABCD".data] ∧
    ('A'.isDigit = true ∨ ('A' ≤ 'A' ∧ 'A' ≤ 'F')) ∧
    matchFormidLine "no label here".data = none := by
  have h := extract_formids_spec ["  Form ID: 0x0012abCD".data]
  refine ⟨?_, ?_, ?_⟩
  · rw [h.1]; decide
  · have hc := h.2.1 "  Form ID: 0x0012abCD".data "0012ABCD".data (by decide) 'A' (by decide)
    exact hc
  · exact h.2.2 "no label here".data (by decide)

/-- Decimal rendering of a count (Python `f"{count}"`). -/
def natChars (n : Nat) : Line :=
  Nat.toDigits 10 n

/-- Report line with a database description:
`- <formid> | [<plugin>] | <description> | <count>`. -/
def formidDescLine (formidFull plugin desc : Line) (count : Nat) : Line :=
  "- ".data ++ formidFull ++ " | [".data ++ plugin ++ "] | ".data ++ desc ++
    " | ".data ++ natChars count ++ "\n".data

/-- Report line without a description: `- <formid> | [<plugin>] | <count>`. -/
def formidPlainLine (formidFull plugin : Line) (count : Nat) : Line :=
  "- ".data ++ formidFull ++ " | [".data ++ plugin ++ "] | ".data ++
    natChars count ++ "\n".data

/-- Python truthiness of `get_entry`'s `str | None` result. -/
def pyTruthyOpt : Option Line → Bool
  | some d => !d.isEmpty
  | none => false

/-- The inner plugin loop of `formid_match`, for one FormID group: skip
plugins whose status differs from the id's first two hex digits; with
lookup enabled and a truthy description, emit the description line and
continue with the next plugin; otherwise emit the plain line and break.
`lookup` abstracts the external `get_entry(hex-suffix, plugin)` database
function. -/
def formidPluginScan (lookup : Line → Line → Option Line) (showVals dbExists : Bool)
    (formidFull fidHex : Line) (count : Nat) :
    List (Line × Line) → List Line
  | [] => []
  | (plugin, pluginId) :: rest =>
    if pluginId ≠ fidHex.take 2 then
      formidPluginScan lookup showVals dbExists formidFull fidHex count rest
    else if showVals = true ∧ dbExists = true then
      if pyTruthyOpt (lookup (fidHex.drop 2) plugin) then
        formidDescLine formidFull plugin ((lookup (fidHex.drop 2) plugin).getD []) count ::
          formidPluginScan lookup showVals dbExists formidFull fidHex count rest
      else [formidPlainLine formidFull plugin count]
    else [formidPlainLine formidFull plugin count]

/-- Lexicographic comparison of strings by code point (Python `sorted`). -/
def lexLe : Line → Line → Bool
  | [], _ => true
  | _ :: _, [] => false
  | a :: as, b :: bs => if a = b then lexLe as bs else decide (a < b)

/-- Insertion into an ascending list (helper for `pySorted`). -/
def insertSorted (x : Line) : List Line → List Line
  | [] => [x]
  | y :: t => if lexLe x y then x :: y :: t else y :: insertSorted x t

/-- Python `sorted` on strings (stable ascending insertion sort). -/
def pySorted (l : List Line) : List Line :=
  l.foldr insertSorted []

/-- Python `dict(Counter(l))`: keys in first-occurrence order with their
total multiplicities. -/
def counterItems (l : List Line) : List (Line × Nat) :=
  l.foldl (fun acc x =>
    if acc.any (fun p => p.1 = x) then
      acc.map (fun p => if p.1 = x then (p.1, p.2 + 1) else p)
    else acc ++ [(x, 1)]) []

/-- The fixed trailer appended after a non-empty FormID section. -/
def formidTrailer (crashgenName : Line) : List Line :=
  ["\n[Last number counts how many times each Form ID shows up in the crash log.]\n".data,
   "These Form IDs were caught by ".data ++ crashgenName ++
     " and some of them might be related to this crash.\n".data,
   "You can try searching any listed Form IDs in xEdit and see if they lead to relevant records.\n\n".data]

/-- `formid_match`: group the extracted FormID strings (sorted, counted),
and for each group whose text splits on `": "` run the plugin loop,
appending the group's lines to the report; empty input yields the fixed
no-suspects line. -/
def formid_match (lookup : Line → Line → Option Line) (showVals dbExists : Bool)
    (crashgenName : Line) (formids_matches : List Line)
    (crashlog_plugins : List (Line × Line)) (report : List Line) : List Line :=
  if formids_matches ≠ [] then
    let formids_found := counterItems (pySorted formids_matches)
    let body := formids_found.foldl (fun rep p =>
      match pySplitOnce p.1 ": ".data with
      | none => rep
      | some (_, fid) =>
        rep ++ formidPluginScan lookup showVals dbExists p.1 fid p.2 crashlog_plugins)
      report
    body ++ formidTrailer crashgenName
  else report ++ ["* COULDN'T FIND ANY FORM ID SUSPECTS *\n\n".data]

/-- C3, counterexample: two plugins `P1`, `P2` share the status `12` and
the description lookup hits for both. After the hit on `P1` the loop goes
on to `P2` (the code `continue`s instead of breaking), so `P2`'s
description line also appears in the report — the claim predicts scanning
stops at `P1`. -/
theorem formid_match_hit_continues_counterexample :
    formidDescLine "Form ID: 12ABCDEF".data "P1".data "D1".data 1 ∈
      formid_match
        (fun _ p => if p = "P1".data then some "D1".data
          else if p = "P2".data then some "D2".data else none)
        true true "Buffout 4".data ["Form ID: 12ABCDEF".data]
        [("P1".data, "12".data), ("P2".data, "12".data)] [] ∧
    formidDescLine "Form ID: 12ABCDEF".data "P2".data "D2".data 1 ∈
      formid_match
        (fun _ p => if p = "P1".data then some "D1".data
          else if p = "P2".data then some "D2".data else none)
        true true "Buffout 4".data ["Form ID: 12ABCDEF".data]
        [("P1".data, "12".data), ("P2".data, "12".data)] [] := by
  constructor <;> decide

/-- C3, amended, part (a): with lookup disabled (either flag false), the
group emits the plain line for the first plugin whose status equals the
id's first two hex digits, and nothing else. -/
theorem formidPluginScan_disabled (lookup : Line → Line → Option Line)
    (showVals dbExists : Bool) (ff fid : Line) (cnt : Nat)
    (plugins : List (Line × Line))
    (hoff : ¬ (showVals = true ∧ dbExists = true)) :
    formidPluginScan lookup showVals dbExists ff fid cnt plugins =
      match plugins.find? (fun p => p.2 = fid.take 2) with
      | none => []
      | some p => [formidPlainLine ff p.1 cnt] := by
  induction plugins with
  | nil => rfl
  | cons q rest ih =>
    obtain ⟨plugin, pluginId⟩ := q
    unfold formidPluginScan
    by_cases hid : pluginId = fid.take 2
    · rw [if_neg (by simpa using hid), if_neg hoff]
      rw [List.find?_cons_of_pos _ (by simpa using hid)]
    · rw [if_pos (by simpa using hid)]
      rw [List.find?_cons_of_neg _ (by simpa using hid)]
      exact ih

theorem formidPluginScan_all_hits (lookup : Line → Line → Option Line)
    (ff fid : Line) (cnt : Nat) (plugins : List (Line × Line))
    (hall : ∀ q ∈ plugins, q.2 = fid.take 2 →
      pyTruthyOpt (lookup (fid.drop 2) q.1) = true) :
    formidPluginScan lookup true true ff fid cnt plugins =
      (plugins.filter (fun q => q.2 = fid.take 2)).map
        (fun q => formidDescLine ff q.1 ((lookup (fid.drop 2) q.1).getD []) cnt) := by
  induction plugins with
  | nil => rfl
  | cons q rest ih =>
    obtain ⟨plugin, pluginId⟩ := q
    unfold formidPluginScan
    by_cases hid : pluginId = fid.take 2
    · rw [if_neg (by simpa using hid), if_pos ⟨rfl, rfl⟩,
        if_pos (hall ⟨plugin, pluginId⟩ (List.mem_cons_self _ _) hid)]
      rw [List.filter_cons_of_pos (by simpa using hid), List.map_cons]
      rw [ih (fun q hq => hall q (List.mem_cons_of_mem _ hq))]
    · rw [if_pos (by simpa using hid)]
      rw [List.filter_cons_of_neg (by simpa using hid)]
      exact ih (fun q hq => hall q (List.mem_cons_of_mem _ hq))

/-- C3, amended: with lookup enabled, every status-matching plugin with a
truthy description before the first status-matching plugin without one
emits a description line and scanning CONTINUES past it; the first
status-matching plugin whose lookup misses (or is falsy) emits the plain
line and scanning stops there; with lookup disabled the plain line of the
first status-matching plugin is the only output. -/
theorem formidPluginScan_spec (lookup : Line → Line → Option Line)
    (ff fid : Line) (cnt : Nat) :
    (∀ pre p post,
      (∀ q ∈ pre, q.2 = fid.take 2 → pyTruthyOpt (lookup (fid.drop 2) q.1) = true) →
      p.2 = fid.take 2 →
      pyTruthyOpt (lookup (fid.drop 2) p.1) = false →
      formidPluginScan lookup true true ff fid cnt (pre ++ p :: post) =
        (pre.filter (fun q => q.2 = fid.take 2)).map
          (fun q => formidDescLine ff q.1 ((lookup (fid.drop 2) q.1).getD []) cnt) ++
          [formidPlainLine ff p.1 cnt]) ∧
    (∀ plugins,
      (∀ q ∈ plugins, q.2 = fid.take 2 →
        pyTruthyOpt (lookup (fid.drop 2) q.1) = true) →
      formidPluginScan lookup true true ff fid cnt plugins =
        (plugins.filter (fun q => q.2 = fid.take 2)).map
          (fun q => formidDescLine ff q.1 ((lookup (fid.drop 2) q.1).getD []) cnt)) ∧
    (∀ showVals dbExists plugins, ¬ (showVals = true ∧ dbExists = true) →
      formidPluginScan lookup showVals dbExists ff fid cnt plugins =
        match plugins.find? (fun p => p.2 = fid.take 2) with
        | none => []
        | some p => [formidPlainLine ff p.1 cnt]) := by
  refine ⟨?_, ?_, ?_⟩
  · intro pre p post hpre hp hmiss
    induction pre with
    | nil =>
      obtain ⟨plugin, pluginId⟩ := p
      simp only [List.nil_append, List.filter_nil, List.map_nil]
      unfold formidPluginScan
      rw [if_neg (by simpa using hp), if_pos ⟨rfl, rfl⟩, if_neg (by simp [hmiss])]
    | cons q rest ih =>
      obtain ⟨plugin, pluginId⟩ := q
      simp only [List.cons_append]
      unfold formidPluginScan
      by_cases hid : pluginId = fid.take 2
      · rw [if_neg (by simpa using hid), if_pos ⟨rfl, rfl⟩,
          if_pos (hpre ⟨plugin, pluginId⟩ (List.mem_cons_self _ _) hid)]
        rw [List.filter_cons_of_pos (by simpa using hid), List.map_cons]
        rw [ih (fun q hq => hpre q (List.mem_cons_of_mem _ hq))]
        simp
      · rw [if_pos (by simpa using hid)]
        rw [List.filter_cons_of_neg (by simpa using hid)]
        exact ih (fun q hq => hpre q (List.mem_cons_of_mem _ hq))
  · intro plugins hall
    exact formidPluginScan_all_hits lookup ff fid cnt plugins hall
  · intro showVals dbExists plugins hoff
    exact formidPluginScan_disabled lookup showVals dbExists ff fid cnt plugins hoff

/-- C3 amended witness: concrete run with a hit on `P1` (line emitted and
scanning continues), a miss on `P2` (plain line, stop), and plugin `P3`
never reached. -/
theorem formidPluginScan_spec_witness :
    formidPluginScan
        (fun _ p => if p = "P1".data then some "D1".data else none)
        true true "Form ID: 12ABCDEF".data "12ABCDEF".data 2
        [("P1".data, "12".data), ("P2".data, "12".data), ("P3".data, "12".data)] =
      [formidDescLine "Form ID: 12ABCDEF".data "P1".data "D1".data 2,
       formidPlainLine "Form ID: 12ABCDEF".data "P2".data 2] := by
  have h := (formidPluginScan_spec
      (fun _ p => if p = "P1".data then some "D1".data else none)
      "Form ID: 12ABCDEF".data "12ABCDEF".data 2).1
      [("P1".data, "12".data)] ("P2".data, "12".data) [("P3".data, "12".data)]
      (by decide) (by decide) (by decide)
  simpa using h

/-! ## Batch runner file handling: `write_report_to_file` /
`move_unsolved_logs` (CLASSIC_ScanLogs.py)

Files are modelled as (directory, name) pairs; the file system as the list
of existing files; `Path.rename` as remove-then-add. -/

/-- A file path, split into its directory and file name. -/
structure FsPath where
  dir : Line
  name : Line
  deriving DecidableEq

/-- Index of the last `.` in a name, if any. -/
def lastDot (name : Line) : Option Nat :=
  (List.range name.length).foldl
    (fun acc i => if name.getD i ' ' = '.' then some i else acc) none

/-- `pathlib.PurePath.stem`: the name without its final extension (an
extension needs a dot that is neither the first nor the last character). -/
def pyStem (name : Line) : Line :=
  match lastDot name with
  | some i => if 0 < i ∧ i < name.length - 1 then name.take i else name
  | none => name

/-- `crashlog_file.with_name(f"{stem}-AUTOSCAN.md")`'s file name. -/
def autoscanName (sourceName : Line) : Line :=
  pyStem sourceName ++ "-AUTOSCAN.md".data

/-- The file system: the list of existing files. -/
abbrev Fs := List FsPath

/-- `old.rename(new)`. -/
def fsRename (old new : FsPath) (fs : Fs) : Fs :=
  fs.filter (fun p => p ≠ old) ++ [new]

/-- `GlobalRegistry.get_local_dir() / "CLASSIC Backup/Unsolved Logs"`. -/
def backupDir (localDir : Line) : Line :=
  localDir ++ "/CLASSIC Backup/Unsolved Logs".data

/-- `move_unsolved_logs`: build the report path next to the source log and
the backup target named after the REPORT; if the source log exists, rename
the source log to the backup target, else rename the report there. -/
def move_unsolved_logs (localDir : Line) (crashlog_file : FsPath) (fs : Fs) : Fs :=
  let autoscan_filepath : FsPath := ⟨crashlog_file.dir, autoscanName crashlog_file.name⟩
  let backup_filepath : FsPath := ⟨backupDir localDir, autoscan_filepath.name⟩
  if crashlog_file ∈ fs then
    fsRename crashlog_file backup_filepath fs
  else
    fsRename autoscan_filepath ⟨backupDir localDir, autoscan_filepath.name⟩ fs

/-- `write_report_to_file`: write (create) the report next to the source
log, then relocate when the scan failed and relocation is configured. -/
def write_report_to_file (localDir : Line) (crashlog_file : FsPath)
    (trigger_scan_failed move_unsolved_cfg : Bool) (fs : Fs) : Fs :=
  let autoscan_path : FsPath := ⟨crashlog_file.dir, autoscanName crashlog_file.name⟩
  let fs1 := fs.filter (fun p => p ≠ autoscan_path) ++ [autoscan_path]
  if trigger_scan_failed ∧ move_unsolved_cfg then
    move_unsolved_logs localDir crashlog_file fs1
  else fs1

/-- C4, code evaluated at the failing input: with the source log present
and relocation configured, the completed failed task leaves the written
report in the source directory (it is never moved), while the SOURCE log
is renamed into the quarantine folder under the REPORT's filename
`crash-1-AUTOSCAN.md`; no quarantined file keeps the source filename
`crash-1.log`. The claim requires both files in quarantine, each under its
own name. -/
theorem move_unsolved_logs_code_bug :
    write_report_to_file "L".data ⟨"D".data, "crash-1.log".data⟩ true true
        [⟨"D".data, "crash-1.log".data⟩] =
      [⟨"D".data, "crash-1-AUTOSCAN.md".data⟩,
       ⟨backupDir "L".data, "crash-1-AUTOSCAN.md".data⟩] ∧
    (⟨"D".data, "crash-1-AUTOSCAN.md".data⟩ : FsPath) ∈
      write_report_to_file "L".data ⟨"D".data, "crash-1.log".data⟩ true true
        [⟨"D".data, "crash-1.log".data⟩] ∧
    (⟨backupDir "L".data, "crash-1.log".data⟩ : FsPath) ∉
      write_report_to_file "L".data ⟨"D".data, "crash-1.log".data⟩ true true
        [⟨"D".data, "crash-1.log".data⟩] := by
  refine ⟨by decide, by decide, by decide⟩

/-! ## Segment Extractor: `extract_segments` / `find_segments` (Parser.py)

The `while` loop of `extract_segments` is embedded as `extractLoop` over
the state `(current_index, segment_index, collecting, segment_start_index,
current_boundary, segments)`. An iteration that closes a segment
re-examines the same line (`current_index -= 1` then `+= 1`), so the
termination measure is `2 * (remaining lines) + (1 if collecting)`.
Out-of-range boundary indexing (Python `IndexError`) is modelled by the
`none` result. -/

/-- Python `s.upper()` (ASCII). -/
def pyUpper (s : Line) : Line := s.map Char.toUpper

/-- One run of the `while` loop of `extract_segments`. -/
def extractLoop (cd : List Line) (bounds : List (Line × Line)) (eof : Line)
    (i k : Nat) (c : Bool) (st : Nat) (b : Line) (acc : List (List Line)) :
    Option (List (List Line)) :=
  if h : i < cd.length then
    let line := cd.get ⟨i, h⟩
    if pyStartsWith line b then
      if hc : c then
        let e := if 0 < i then i - 1 else i
        let acc2 := acc ++ [pySlice st e cd]
        if k + 1 = bounds.length then some acc2
        else
          match bounds[k+1]? with
          | none => none
          | some pair => extractLoop cd bounds eof i (k+1) false st pair.1 acc2
      else
        match bounds[k]? with
        | none => none
        | some pair =>
          if pair.2 = eof then some (acc ++ [cd.drop (i+1)])
          else
            extractLoop cd bounds eof (i+1) k true (i+1) pair.2
              (if i = cd.length - 1 then acc ++ [cd.drop (i+1)] else acc)
    else
      extractLoop cd bounds eof (i+1) k c st b
        (if c ∧ i = cd.length - 1 then acc ++ [cd.drop st] else acc)
  else some acc
  termination_by 2 * (cd.length - i) + (if c then 1 else 0)
  decreasing_by
  · simp [hc]
  · have hcf : ¬ c = true := hc
    cases c
    · simp
      omega
    · exact absurd rfl hcf
  · cases c
    · simp
      omega
    · simp
      omega

/-- `extract_segments`: start before the first boundary pair's start
marker, with nothing collected. -/
def extract_segments (cd : List Line) (bounds : List (Line × Line)) (eof : Line) :
    Option (List (List Line)) :=
  match bounds[0]? with
  | none => none
  | some p => extractLoop cd bounds eof 0 0 false 0 p.1 []

/-- The six boundary pairs of `find_segments`. -/
def segmentBoundaries (xse : Line) : List (Line × Line) :=
  [("\t[Compatibility]".data, "SYSTEM SPECS:".data),
   ("SYSTEM SPECS:".data, "PROBABLE CALL STACK:".data),
   ("PROBABLE CALL STACK:".data, "MODULES:".data),
   ("MODULES:".data, pyUpper xse ++ " PLUGINS:".data),
   (pyUpper xse ++ " PLUGINS:".data, "PLUGINS:".data),
   ("PLUGINS:".data, "EOF".data)]

/-- `find_segments`: header metadata, segment extraction, per-line strip,
padding with empty segments up to the six expected ones. -/
def find_segments (cd : List Line) (crashgen_name xse_acronym game_root_name : Line) :
    Option (Line × Line × Line × List (List Line)) :=
  let bounds := segmentBoundaries xse_acronym
  let hdr := parse_crash_header cd crashgen_name game_root_name
  match extract_segments cd bounds "EOF".data with
  | none => none
  | some segments =>
    let processed := if segments ≠ [] then segments.map (fun seg => seg.map pyStrip)
      else segments
    let missing := bounds.length - processed.length
    let processed2 := if 0 < missing then processed ++ List.replicate missing ([] : List Line)
      else processed
    some (hdr.1, hdr.2.1, hdr.2.2, processed2)

theorem extractLoop_stop (cd : List Line) (bounds : List (Line × Line)) (eof : Line)
    (i k : Nat) (c : Bool) (st : Nat) (b : Line) (acc : List (List Line))
    (h : ¬ i < cd.length) :
    extractLoop cd bounds eof i k c st b acc = some acc := by
  rw [extractLoop.eq_def, dif_neg h]

theorem extractLoop_nohit (cd : List Line) (bounds : List (Line × Line)) (eof : Line)
    (i k : Nat) (c : Bool) (st : Nat) (b : Line) (acc : List (List Line))
    (h : i < cd.length) (hline : pyStartsWith (cd.get ⟨i, h⟩) b = false) :
    extractLoop cd bounds eof i k c st b acc =
      extractLoop cd bounds eof (i+1) k c st b
        (if c = true ∧ i = cd.length - 1 then acc ++ [cd.drop st] else acc) := by
  rw [extractLoop.eq_def, dif_pos h]
  simp only [hline, Bool.false_eq_true, if_false]

theorem extractLoop_close_break (cd : List Line) (bounds : List (Line × Line)) (eof : Line)
    (i k st : Nat) (b : Line) (acc : List (List Line))
    (h : i < cd.length) (hline : pyStartsWith (cd.get ⟨i, h⟩) b = true)
    (hk : k + 1 = bounds.length) :
    extractLoop cd bounds eof i k true st b acc =
      some (acc ++ [pySlice st (if 0 < i then i - 1 else i) cd]) := by
  rw [extractLoop.eq_def, dif_pos h]
  simp only [hline, if_true, hk, if_pos rfl]
  rw [dif_pos trivial]

theorem extractLoop_close_cont (cd : List Line) (bounds : List (Line × Line)) (eof : Line)
    (i k st : Nat) (b : Line) (acc : List (List Line)) (pair : Line × Line)
    (h : i < cd.length) (hline : pyStartsWith (cd.get ⟨i, h⟩) b = true)
    (hk : ¬ k + 1 = bounds.length) (hpair : bounds[k+1]? = some pair) :
    extractLoop cd bounds eof i k true st b acc =
      extractLoop cd bounds eof i (k+1) false st pair.1
        (acc ++ [pySlice st (if 0 < i then i - 1 else i) cd]) := by
  rw [extractLoop.eq_def, dif_pos h]
  simp only [hline, if_true, hk, if_false, hpair]
  rw [dif_pos trivial]

theorem extractLoop_open_eof (cd : List Line) (bounds : List (Line × Line)) (eof : Line)
    (i k st : Nat) (b : Line) (acc : List (List Line)) (pair : Line × Line)
    (h : i < cd.length) (hline : pyStartsWith (cd.get ⟨i, h⟩) b = true)
    (hpair : bounds[k]? = some pair) (heof : pair.2 = eof) :
    extractLoop cd bounds eof i k false st b acc =
      some (acc ++ [cd.drop (i+1)]) := by
  rw [extractLoop.eq_def, dif_pos h]
  simp only [hline, if_true]
  rw [dif_neg (by simp)]
  simp only [hpair, heof, if_pos rfl, if_true]

theorem extractLoop_open (cd : List Line) (bounds : List (Line × Line)) (eof : Line)
    (i k st : Nat) (b : Line) (acc : List (List Line)) (pair : Line × Line)
    (h : i < cd.length) (hline : pyStartsWith (cd.get ⟨i, h⟩) b = true)
    (hpair : bounds[k]? = some pair) (heof : ¬ pair.2 = eof) :
    extractLoop cd bounds eof i k false st b acc =
      extractLoop cd bounds eof (i+1) k true (i+1) pair.2
        (if i = cd.length - 1 then acc ++ [cd.drop (i+1)] else acc) := by
  rw [extractLoop.eq_def, dif_pos h]
  simp only [hline, if_true]
  rw [dif_neg (by simp)]
  simp only [hpair, heof, if_false]

theorem extractLoop_close_err (cd : List Line) (bounds : List (Line × Line)) (eof : Line)
    (i k st : Nat) (b : Line) (acc : List (List Line))
    (h : i < cd.length) (hline : pyStartsWith (cd.get ⟨i, h⟩) b = true)
    (hk : ¬ k + 1 = bounds.length) (hpair : bounds[k+1]? = none) :
    extractLoop cd bounds eof i k true st b acc = none := by
  rw [extractLoop.eq_def, dif_pos h]
  simp only [hline, if_true, hk, if_false]
  rw [dif_pos trivial]
  simp only [hk, if_false, hpair]

theorem extractLoop_open_err (cd : List Line) (bounds : List (Line × Line)) (eof : Line)
    (i k st : Nat) (b : Line) (acc : List (List Line))
    (h : i < cd.length) (hline : pyStartsWith (cd.get ⟨i, h⟩) b = true)
    (hpair : bounds[k]? = none) :
    extractLoop cd bounds eof i k false st b acc = none := by
  rw [extractLoop.eq_def, dif_pos h]
  simp only [hline, if_true]
  rw [dif_neg (by simp)]
  simp only [hpair]

theorem pair_of_getElem (bounds : List (Line × Line)) (k : Nat) (pair : Line × Line)
    (hk : k < bounds.length) (hpair : bounds[k]? = some pair) :
    pair = bounds.get ⟨k, hk⟩ := by
  rw [List.getElem?_eq_getElem hk] at hpair
  have := Option.some.inj hpair
  rw [← this, List.get_eq_getElem]

/-- Invariant lemma for the extraction loop: as long as the boundary index
is in range and the expected boundary string agrees with
`(segment_index, collecting)`, the loop terminates with `some` output, of
length at most `j` — where `j` is either the number of boundary pairs, or
the index of a pair whose start marker matches no line of the log. -/
theorem extractLoop_bound (cd : List Line) (bounds : List (Line × Line)) (eof : Line)
    (j : Nat) (hjle : j ≤ bounds.length)
    (hnone : ∀ (hj : j < bounds.length), ∀ l ∈ cd,
      pyStartsWith l (bounds.get ⟨j, hj⟩).1 = false) :
    ∀ i k (c : Bool) st b acc,
      ∀ (hk : k < bounds.length),
      b = (if c then (bounds.get ⟨k, hk⟩).2 else (bounds.get ⟨k, hk⟩).1) →
      k ≤ j → (c = true → k < j) →
      (acc.length = k ∨ (acc.length = k + 1 ∧ cd.length ≤ i ∧ c = true)) →
      ∃ out, extractLoop cd bounds eof i k c st b acc = some out ∧ out.length ≤ j := by
  intro i k c st b acc
  induction i, k, c, st, b, acc using extractLoop.induct cd bounds eof with
  | case1 i k st b acc h line hstart hk1 =>
    intro hk hb hkj hcj hacc
    have hlen : acc.length = k := by
      rcases hacc with hl | ⟨_, hn, _⟩
      · exact hl
      · omega
    refine ⟨acc ++ [pySlice st (if 0 < i then i - 1 else i) cd],
      extractLoop_close_break cd bounds eof i k st b acc h hstart hk1, ?_⟩
    have := hcj rfl
    simp [hlen]
    omega
  | case2 i k st b acc h line hstart hk1 hpair =>
    intro hk hb hkj hcj hacc
    exfalso
    have hklt : k + 1 < bounds.length := by
      have := hcj rfl
      omega
    rw [List.getElem?_eq_getElem hklt] at hpair
    exact absurd hpair (by simp)
  | case3 i k st b acc h line hstart e acc2 hk1 pair hpair ih =>
    intro hk hb hkj hcj hacc
    have hklt : k + 1 < bounds.length := by
      have := hcj rfl
      omega
    have hlen : acc.length = k := by
      rcases hacc with hl | ⟨_, hn, _⟩
      · exact hl
      · omega
    have hpe := pair_of_getElem bounds (k+1) pair hklt hpair
    obtain ⟨out, hout, hle⟩ := ih hklt (by rw [hpe]; simp) (by have := hcj rfl; omega)
      (by intro hfalse; exact absurd hfalse (by simp))
      (by
        left
        show (acc ++ [pySlice st e cd]).length = k + 1
        simp [hlen])
    refine ⟨out, ?_, hle⟩
    rw [extractLoop_close_cont cd bounds eof i k st b acc pair h hstart hk1 hpair]
    exact hout
  | case4 i k c st b acc h line hstart hcf hpair =>
    intro hk hb hkj hcj hacc
    exfalso
    rw [List.getElem?_eq_getElem hk] at hpair
    exact absurd hpair (by simp)
  | case5 i k c st b acc h line hstart hcf pair hpair heof =>
    intro hk hb hkj hcj hacc
    have hcfalse : c = false := by
      cases c
      · rfl
      · exact absurd rfl hcf
    subst hcfalse
    have hlen : acc.length = k := by
      rcases hacc with hl | ⟨_, _, hc⟩
      · exact hl
      · exact absurd hc (by simp)
    have hkj' : k < j := by
      rcases Nat.lt_or_ge k j with hlt | hge
      · exact hlt
      · exfalso
        have hkeqj : k = j := by omega
        subst hkeqj
        have hmem : cd.get ⟨i, h⟩ ∈ cd := List.get_mem cd i h
        have hceq : b = (bounds.get ⟨k, hk⟩).1 := by
          rw [hb, if_neg (show ¬ (false = true) from by decide)]
        have hPS : pyStartsWith (cd.get ⟨i, h⟩) ((bounds.get ⟨k, hk⟩).1) = true := by
          rw [← hceq]
          exact hstart
        have hfalse := hnone hk _ hmem
        rw [hfalse] at hPS
        exact absurd hPS (by simp)
    refine ⟨acc ++ [cd.drop (i+1)],
      extractLoop_open_eof cd bounds eof i k st b acc pair h hstart hpair heof, ?_⟩
    simp [hlen]
    omega
  | case6 i k c st b acc h line hstart hcf pair hpair heof ih =>
    intro hk hb hkj hcj hacc
    have hcfalse : c = false := by
      cases c
      · rfl
      · exact absurd rfl hcf
    subst hcfalse
    have hlen : acc.length = k := by
      rcases hacc with hl | ⟨_, _, hc⟩
      · exact hl
      · exact absurd hc (by simp)
    have hkj' : k < j := by
      rcases Nat.lt_or_ge k j with hlt | hge
      · exact hlt
      · exfalso
        have hkeqj : k = j := by omega
        subst hkeqj
        have hmem : cd.get ⟨i, h⟩ ∈ cd := List.get_mem cd i h
        have hceq : b = (bounds.get ⟨k, hk⟩).1 := by
          rw [hb, if_neg (show ¬ (false = true) from by decide)]
        have hPS : pyStartsWith (cd.get ⟨i, h⟩) ((bounds.get ⟨k, hk⟩).1) = true := by
          rw [← hceq]
          exact hstart
        have hfalse := hnone hk _ hmem
        rw [hfalse] at hPS
        exact absurd hPS (by simp)
    have hpe := pair_of_getElem bounds k pair hk hpair
    obtain ⟨out, hout, hle⟩ := ih hk (by rw [hpe]; simp) hkj (fun _ => hkj')
      (by
        by_cases hend : i = cd.length - 1
        · right
          rw [dif_pos hend]
          refine ⟨by simp [hlen], by omega, rfl⟩
        · left
          rw [dif_neg hend]
          exact hlen)
    refine ⟨out, ?_, hle⟩
    rw [extractLoop_open cd bounds eof i k st b acc pair h hstart hpair heof]
    exact hout
  | case7 i k c st b acc h line hstart ih =>
    intro hk hb hkj hcj hacc
    obtain ⟨out, hout, hle⟩ := ih hk hb hkj hcj
      (by
        by_cases hca : c = true ∧ i = cd.length - 1
        · right
          rw [dif_pos hca]
          have hlen : acc.length = k := by
            rcases hacc with hl | ⟨_, hn, _⟩
            · exact hl
            · omega
          have hi2 : i = cd.length - 1 := hca.2
          refine ⟨by simp [hlen], by omega, hca.1⟩
        · left
          rw [dif_neg hca]
          rcases hacc with hl | ⟨_, hn, _⟩
          · exact hl
          · omega)
    refine ⟨out, ?_, hle⟩
    rw [extractLoop_nohit cd bounds eof i k c st b acc h (by simpa using hstart)]
    exact hout
  | case8 i k c st b acc h =>
    intro hk hb hkj hcj hacc
    refine ⟨acc, extractLoop_stop cd bounds eof i k c st b acc h, ?_⟩
    rcases hacc with hl | ⟨hl, _, hc⟩
    · omega
    · have := hcj hc
      omega

theorem extract_segments_bound (cd : List Line) (bounds : List (Line × Line)) (eof : Line)
    (j : Nat) (hb0 : 0 < bounds.length) (hjle : j ≤ bounds.length)
    (hnone : ∀ (hj : j < bounds.length), ∀ l ∈ cd,
      pyStartsWith l (bounds.get ⟨j, hj⟩).1 = false) :
    ∃ out, extract_segments cd bounds eof = some out ∧ out.length ≤ j := by
  unfold extract_segments
  rw [List.getElem?_eq_getElem hb0]
  exact extractLoop_bound cd bounds eof j hjle hnone 0 0 false 0 _ [] hb0
    (by rw [if_neg (show ¬ (false = true) from by decide), List.get_eq_getElem])
    (Nat.zero_le j) (by intro hf; exact absurd hf (by simp)) (Or.inl rfl)

/-- The start marker of boundary pair `j` of `find_segments`. -/
def boundsStart (xse : Line) (j : Nat) : Line :=
  ((segmentBoundaries xse).getD j ([], [])).1

theorem segmentBoundaries_length (xse : Line) : (segmentBoundaries xse).length = 6 := by
  rfl

/-- C8: `find_segments` never fails on any input line sequence (including
the empty log), always returns exactly six segments, and every boundary
pair whose start marker matches no line of the log gets an empty
segment. -/
theorem find_segments_safe (cd : List Line) (cg xse grn : Line) :
    (find_segments cd cg xse grn).isSome = true ∧
    ((find_segments cd cg xse grn).getD ([], [], [], [])).2.2.2.length = 6 ∧
    (∀ j, j < 6 →
      (∀ l ∈ cd, pyStartsWith l (boundsStart xse j) = false) →
      ((find_segments cd cg xse grn).getD ([], [], [], [])).2.2.2.getD j [] = []) := by
  have hb0 : 0 < (segmentBoundaries xse).length := by rw [segmentBoundaries_length]; omega
  obtain ⟨out, hout, hle⟩ := extract_segments_bound cd (segmentBoundaries xse) "EOF".data
    6 hb0 (by rw [segmentBoundaries_length]) (by
      intro hj
      exfalso
      rw [segmentBoundaries_length] at hj
      omega)
  have hlen6 : (segmentBoundaries xse).length = 6 := segmentBoundaries_length xse
  -- the padded segment list
  have hfind : find_segments cd cg xse grn =
      some ((parse_crash_header cd cg grn).1, (parse_crash_header cd cg grn).2.1,
        (parse_crash_header cd cg grn).2.2,
        (if out ≠ [] then out.map (fun seg => seg.map pyStrip) else out) ++
          List.replicate
            ((segmentBoundaries xse).length -
              (if out ≠ [] then out.map (fun seg => seg.map pyStrip) else out).length)
            []) := by
    unfold find_segments
    dsimp only
    rw [hout]
    dsimp only
    by_cases hmiss : 0 <
        (segmentBoundaries xse).length -
          (if out ≠ [] then out.map (fun seg => seg.map pyStrip) else out).length
    · rw [if_pos hmiss]
    · rw [if_neg hmiss]
      have hzero : (segmentBoundaries xse).length -
          (if out ≠ [] then out.map (fun seg => seg.map pyStrip) else out).length = 0 := by
        omega
      rw [hzero, List.replicate_zero, List.append_nil]
  set processed := (if out ≠ [] then out.map (fun seg => seg.map pyStrip) else out) with hproc
  have hplen : processed.length = out.length := by
    rw [hproc]
    by_cases hne : out ≠ []
    · rw [if_pos hne, List.length_map]
    · rw [if_neg hne]
  refine ⟨by rw [hfind]; rfl, ?_, ?_⟩
  · rw [hfind]
    simp only [Option.getD_some]
    rw [List.length_append, List.length_replicate, hplen, hlen6]
    omega
  · intro j hj6 hnone
    obtain ⟨outj, houtj, hlej⟩ := extract_segments_bound cd (segmentBoundaries xse)
      "EOF".data j hb0 (by omega) (by
        intro hjb l hl
        have := hnone l hl
        rw [boundsStart, List.getD_eq_getElem _ _ hjb] at this
        rw [List.get_eq_getElem]
        exact this)
    rw [hout] at houtj
    have houteq : out = outj := Option.some.inj houtj
    have houtlen : out.length ≤ j := by rw [houteq]; exact hlej
    rw [hfind]
    simp only [Option.getD_some]
    rw [List.getD_append_right _ _ _ _ (by omega)]
    rw [List.getD_eq_getElem?_getD, List.getElem?_replicate]
    rw [if_pos (by rw [hplen, hlen6]; omega)]
    rfl

/-- C8 witness: the empty log is parsed without error into six segments,
the first of which (boundary markers absent) is empty. -/
theorem find_segments_safe_witness :
    (find_segments [] "Buffout 4".data "F4SE".data "Fallout".data).isSome = true ∧
    ((find_segments [] "Buffout 4".data "F4SE".data "Fallout".data).getD
        ([], [], [], [])).2.2.2.length = 6 ∧
    ((find_segments [] "Buffout 4".data "F4SE".data "Fallout".data).getD
        ([], [], [], [])).2.2.2.getD 0 [] = [] := by
  have h := find_segments_safe [] "Buffout 4".data "F4SE".data "Fallout".data
  exact ⟨h.1, h.2.1, h.2.2 0 (by omega) (by intro l hl; exact absurd hl (List.not_mem_nil l))⟩

theorem drop_cons_get (cd : List Line) (i : Nat) (m : Line) (rest : List Line)
    (hdrop : cd.drop i = m :: rest) :
    ∃ (h : i < cd.length), cd.get ⟨i, h⟩ = m ∧ cd.drop (i+1) = rest := by
  have hlen : i < cd.length := by
    have := congrArg List.length hdrop
    rw [List.length_drop] at this
    simp only [List.length_cons] at this
    omega
  have hconsdrop := List.getElem_cons_drop cd i hlen
  rw [hdrop] at hconsdrop
  obtain ⟨h1, h2⟩ := List.cons.inj hconsdrop
  exact ⟨hlen, by rw [List.get_eq_getElem]; exact h1, h2⟩

theorem drop_through (cd : List Line) (n : Nat) (x rest : List Line)
    (h : cd.drop n = x ++ rest) : cd.drop (n + x.length) = rest := by
  have h2 : List.drop x.length (List.drop n cd) = List.drop x.length (x ++ rest) := by rw [h]
  rw [List.drop_drop, List.drop_left] at h2
  exact h2

theorem pySlice_section (cd : List Line) (st : Nat) (x rest : List Line)
    (hdrop : cd.drop st = x ++ rest) :
    pySlice st (st + x.length - 1) cd = x.dropLast := by
  unfold pySlice
  rw [List.drop_take]
  have hidx : st + x.length - 1 - st = x.length - 1 := by omega
  rw [hidx, hdrop, List.take_append_eq_append_take,
    show x.length - 1 - x.length = 0 by omega, List.take_zero,
    List.append_nil, List.dropLast_eq_take]

/-- Scanning while not collecting skips every line that does not start
with the expected start marker. -/
theorem extractLoop_skip_nc (cd : List Line) (bounds : List (Line × Line)) (eof : Line)
    (x rest : List Line) :
    ∀ i k st b acc, cd.drop i = x ++ rest →
    (∀ l ∈ x, pyStartsWith l b = false) →
    extractLoop cd bounds eof i k false st b acc =
      extractLoop cd bounds eof (i + x.length) k false st b acc := by
  induction x with
  | nil =>
    intro i k st b acc hdrop hx
    simp
  | cons l t ih =>
    intro i k st b acc hdrop hx
    obtain ⟨h, hget, hdrop'⟩ := drop_cons_get cd i l (t ++ rest) (by simpa using hdrop)
    rw [extractLoop_nohit cd bounds eof i k false st b acc h
      (by rw [hget]; exact hx l (List.mem_cons_self _ _))]
    rw [if_neg (by simp)]
    rw [ih (i+1) k st b acc hdrop' (fun y hy => hx y (List.mem_cons_of_mem _ hy))]
    congr 1
    simp
    omega

/-- Scanning while collecting skips every line that does not start with
the expected end marker, as long as some line remains afterwards. -/
theorem extractLoop_skip_c (cd : List Line) (bounds : List (Line × Line)) (eof : Line)
    (x rest : List Line) (hrest : rest ≠ []) :
    ∀ i k st b acc, cd.drop i = x ++ rest →
    (∀ l ∈ x, pyStartsWith l b = false) →
    extractLoop cd bounds eof i k true st b acc =
      extractLoop cd bounds eof (i + x.length) k true st b acc := by
  induction x with
  | nil =>
    intro i k st b acc hdrop hx
    simp
  | cons l t ih =>
    intro i k st b acc hdrop hx
    obtain ⟨h, hget, hdrop'⟩ := drop_cons_get cd i l (t ++ rest) (by simpa using hdrop)
    have hfar : ¬ (i = cd.length - 1) := by
      have := congrArg List.length hdrop
      rw [List.length_drop] at this
      simp only [List.length_cons, List.length_append] at this
      have hr1 : 1 ≤ rest.length := by
        cases rest with
        | nil => exact absurd rfl hrest
        | cons a b => simp
      omega
    rw [extractLoop_nohit cd bounds eof i k true st b acc h
      (by rw [hget]; exact hx l (List.mem_cons_self _ _))]
    rw [if_neg (by
      intro hand
      exact hfar hand.2)]
    rw [ih (i+1) k st b acc hdrop' (fun y hy => hx y (List.mem_cons_of_mem _ hy))]
    congr 1
    simp
    omega

/-- Opening a segment at a start-marker line (not the EOF pair): start
collecting from the following line. -/
theorem extractLoop_openStep (cd : List Line) (bounds : List (Line × Line)) (eof : Line)
    (k i st : Nat) (acc : List (List Line)) (pk : Line × Line) (m : Line) (rest : List Line)
    (hpk : bounds[k]? = some pk)
    (hdrop : cd.drop i = m :: rest) (hrest : rest ≠ [])
    (hm : pyStartsWith m pk.1 = true) (hne : pk.2 ≠ eof) :
    extractLoop cd bounds eof i k false st pk.1 acc =
      extractLoop cd bounds eof (i+1) k true (i+1) pk.2 acc := by
  obtain ⟨h, hget, hdrop'⟩ := drop_cons_get cd i m rest hdrop
  have hfar : ¬ (i = cd.length - 1) := by
    have := congrArg List.length hdrop
    rw [List.length_drop] at this
    simp only [List.length_cons] at this
    have hr1 : 1 ≤ rest.length := by
      cases rest with
      | nil => exact absurd rfl hrest
      | cons a b => simp
    omega
  rw [extractLoop_open cd bounds eof i k st pk.1 acc pk h (by rw [hget]; exact hm) hpk hne]
  rw [if_neg hfar]

/-- Opening the final segment whose end marker is the EOF sentinel: all
remaining lines become the segment and scanning stops. -/
theorem extractLoop_openEofStep (cd : List Line) (bounds : List (Line × Line)) (eof : Line)
    (k i st : Nat) (acc : List (List Line)) (pk : Line × Line) (m : Line) (rest : List Line)
    (hpk : bounds[k]? = some pk)
    (hdrop : cd.drop i = m :: rest)
    (hm : pyStartsWith m pk.1 = true) (heq : pk.2 = eof) :
    extractLoop cd bounds eof i k false st pk.1 acc = some (acc ++ [rest]) := by
  obtain ⟨h, hget, hdrop'⟩ := drop_cons_get cd i m rest hdrop
  rw [extractLoop_open_eof cd bounds eof i k st pk.1 acc pk h (by rw [hget]; exact hm) hpk heq]
  rw [hdrop']

/-- One complete collect-and-close step: with collection started right
after a start marker at position `st0 - 1`, skip the segment's content
(whose lines never match the end marker), close at the end-marker line,
record the content minus its final line, and hand over to the next pair's
start marker without consuming the end-marker line. -/
theorem extractLoop_segment (cd : List Line) (bounds : List (Line × Line)) (eof : Line)
    (k st0 : Nat) (x : List Line) (m : Line) (rest : List Line)
    (pk pk1 : Line × Line) (acc : List (List Line))
    (hpk : bounds[k]? = some pk) (hpk1 : bounds[k+1]? = some pk1)
    (hk1 : ¬ (k + 1 = bounds.length))
    (hdrop : cd.drop st0 = x ++ m :: rest)
    (hx : ∀ l ∈ x, pyStartsWith l pk.2 = false)
    (hm : pyStartsWith m pk.2 = true)
    (hst : 0 < st0) :
    extractLoop cd bounds eof st0 k true st0 pk.2 acc =
      extractLoop cd bounds eof (st0 + x.length) (k+1) false st0 pk1.1
        (acc ++ [x.dropLast]) := by
  rw [extractLoop_skip_c cd bounds eof x (m :: rest) (by simp) st0 k st0 pk.2 acc hdrop hx]
  obtain ⟨h, hget, hdrop'⟩ := drop_cons_get cd (st0 + x.length) m rest
    (drop_through cd st0 x (m :: rest) hdrop)
  rw [extractLoop_close_cont cd bounds eof (st0 + x.length) k st0 pk.2 acc pk1 h
    (by rw [hget]; exact hm) hk1 hpk1]
  rw [if_pos (by omega), pySlice_section cd st0 x (m :: rest) hdrop]

/-- Traversal of a log with a complete, well-ordered boundary sequence:
optional preamble `x0`, then each pair's start-marker line `mj` followed
by its content `xj`, each end-marker line doubling as the next start
marker, and the sixth segment running to the end of the log. The code
closes each of the five marker-delimited segments WITHOUT the line
immediately preceding the end marker (`dropLast`), and the final
EOF-delimited segment with all remaining lines. -/
theorem extractStructured
    (x0 x1 x2 x3 x4 x5 x6 : List Line) (m1 m2 m3 m4 m5 m6 : Line)
    (p1 p2 p3 p4 p5 p6 : Line × Line) (eof : Line)
    (heq6 : p6.2 = eof)
    (hne1 : p1.2 ≠ eof) (hne2 : p2.2 ≠ eof) (hne3 : p3.2 ≠ eof)
    (hne4 : p4.2 ≠ eof) (hne5 : p5.2 ≠ eof)
    (hs1 : pyStartsWith m1 p1.1 = true)
    (he2 : pyStartsWith m2 p1.2 = true) (hs2 : pyStartsWith m2 p2.1 = true)
    (he3 : pyStartsWith m3 p2.2 = true) (hs3 : pyStartsWith m3 p3.1 = true)
    (he4 : pyStartsWith m4 p3.2 = true) (hs4 : pyStartsWith m4 p4.1 = true)
    (he5 : pyStartsWith m5 p4.2 = true) (hs5 : pyStartsWith m5 p5.1 = true)
    (he6 : pyStartsWith m6 p5.2 = true) (hs6 : pyStartsWith m6 p6.1 = true)
    (hx0 : ∀ l ∈ x0, pyStartsWith l p1.1 = false)
    (hx1 : ∀ l ∈ x1, pyStartsWith l p1.2 = false)
    (hx2 : ∀ l ∈ x2, pyStartsWith l p2.2 = false)
    (hx3 : ∀ l ∈ x3, pyStartsWith l p3.2 = false)
    (hx4 : ∀ l ∈ x4, pyStartsWith l p4.2 = false)
    (hx5 : ∀ l ∈ x5, pyStartsWith l p5.2 = false) :
    extract_segments
      (x0 ++ m1 :: (x1 ++ m2 :: (x2 ++ m3 :: (x3 ++ m4 :: (x4 ++ m5 :: (x5 ++ m6 :: x6))))))
      [p1, p2, p3, p4, p5, p6] eof =
    some [x1.dropLast, x2.dropLast, x3.dropLast, x4.dropLast, x5.dropLast, x6] := by
  have hp1 : ([p1,p2,p3,p4,p5,p6] : List (Line × Line))[0]? = some p1 := rfl
  have hp2 : ([p1,p2,p3,p4,p5,p6] : List (Line × Line))[1]? = some p2 := rfl
  have hp3 : ([p1,p2,p3,p4,p5,p6] : List (Line × Line))[2]? = some p3 := rfl
  have hp4 : ([p1,p2,p3,p4,p5,p6] : List (Line × Line))[3]? = some p4 := rfl
  have hp5 : ([p1,p2,p3,p4,p5,p6] : List (Line × Line))[4]? = some p5 := rfl
  have hp6 : ([p1,p2,p3,p4,p5,p6] : List (Line × Line))[5]? = some p6 := rfl
  set t5 := x5 ++ m6 :: x6 with ht5
  set t4 := x4 ++ m5 :: t5 with ht4
  set t3 := x3 ++ m4 :: t4 with ht3
  set t2 := x2 ++ m3 :: t3 with ht2
  set t1 := x1 ++ m2 :: t2 with ht1
  set cd := x0 ++ m1 :: t1 with hcd
  have e0 : extract_segments cd [p1,p2,p3,p4,p5,p6] eof =
      extractLoop cd [p1,p2,p3,p4,p5,p6] eof 0 0 false 0 p1.1 [] := rfl
  rw [e0]
  have hd0 : cd.drop 0 = x0 ++ (m1 :: t1) := by rw [List.drop_zero]
  rw [extractLoop_skip_nc cd _ eof x0 (m1 :: t1) 0 0 0 p1.1 [] hd0 hx0]
  have hq1 : cd.drop (0 + x0.length) = m1 :: t1 := by
    rw [Nat.zero_add, hcd]
    exact List.drop_left x0 (m1 :: t1)
  obtain ⟨hlt1, hget1, hdropS1⟩ := drop_cons_get cd (0 + x0.length) m1 t1 hq1
  have hrest1 : t1 ≠ [] := by rw [ht1]; simp
  rw [extractLoop_openStep cd _ eof 0 (0 + x0.length) _ _ p1 m1 t1 hp1 hq1 hrest1 hs1 hne1]
  have hd1 : cd.drop (0 + x0.length + 1) = x1 ++ (m2 :: t2) := by
    rw [hdropS1]
  rw [extractLoop_segment cd _ eof 0 (0 + x0.length + 1) x1 m2 t2 p1 p2 _ hp1 hp2
    (by simp) hd1 hx1 he2 (by omega)]
  have hq2 : cd.drop (0 + x0.length + 1 + x1.length) = m2 :: t2 :=
    drop_through cd (0 + x0.length + 1) x1 (m2 :: t2) hd1
  obtain ⟨hlt2, hget2, hdropS2⟩ := drop_cons_get cd (0 + x0.length + 1 + x1.length) m2 t2 hq2
  have hrest2 : t2 ≠ [] := by rw [ht2]; simp
  rw [extractLoop_openStep cd _ eof 1 (0 + x0.length + 1 + x1.length) _ _ p2 m2 t2 hp2 hq2
    hrest2 hs2 hne2]
  have hd2 : cd.drop (0 + x0.length + 1 + x1.length + 1) = x2 ++ (m3 :: t3) := by
    rw [hdropS2]
  rw [extractLoop_segment cd _ eof 1 (0 + x0.length + 1 + x1.length + 1) x2 m3 t3 p2 p3 _
    hp2 hp3 (by simp) hd2 hx2 he3 (by omega)]
  have hq3 : cd.drop (0 + x0.length + 1 + x1.length + 1 + x2.length) = m3 :: t3 :=
    drop_through cd (0 + x0.length + 1 + x1.length + 1) x2 (m3 :: t3) hd2
  obtain ⟨hlt3, hget3, hdropS3⟩ := drop_cons_get cd _ m3 t3 hq3
  have hrest3 : t3 ≠ [] := by rw [ht3]; simp
  rw [extractLoop_openStep cd _ eof 2 (0 + x0.length + 1 + x1.length + 1 + x2.length) _ _
    p3 m3 t3 hp3 hq3 hrest3 hs3 hne3]
  have hd3 : cd.drop (0 + x0.length + 1 + x1.length + 1 + x2.length + 1) =
      x3 ++ (m4 :: t4) := by
    rw [hdropS3]
  rw [extractLoop_segment cd _ eof 2 (0 + x0.length + 1 + x1.length + 1 + x2.length + 1)
    x3 m4 t4 p3 p4 _ hp3 hp4 (by simp) hd3 hx3 he4 (by omega)]
  have hq4 : cd.drop (0 + x0.length + 1 + x1.length + 1 + x2.length + 1 + x3.length) =
      m4 :: t4 :=
    drop_through cd (0 + x0.length + 1 + x1.length + 1 + x2.length + 1) x3 (m4 :: t4) hd3
  obtain ⟨hlt4, hget4, hdropS4⟩ := drop_cons_get cd _ m4 t4 hq4
  have hrest4 : t4 ≠ [] := by rw [ht4]; simp
  rw [extractLoop_openStep cd _ eof 3
    (0 + x0.length + 1 + x1.length + 1 + x2.length + 1 + x3.length) _ _
    p4 m4 t4 hp4 hq4 hrest4 hs4 hne4]
  have hd4 : cd.drop (0 + x0.length + 1 + x1.length + 1 + x2.length + 1 + x3.length + 1) =
      x4 ++ (m5 :: t5) := by
    rw [hdropS4]
  rw [extractLoop_segment cd _ eof 3
    (0 + x0.length + 1 + x1.length + 1 + x2.length + 1 + x3.length + 1)
    x4 m5 t5 p4 p5 _ hp4 hp5 (by simp) hd4 hx4 he5 (by omega)]
  have hq5 : cd.drop
      (0 + x0.length + 1 + x1.length + 1 + x2.length + 1 + x3.length + 1 + x4.length) =
      m5 :: t5 :=
    drop_through cd (0 + x0.length + 1 + x1.length + 1 + x2.length + 1 + x3.length + 1)
      x4 (m5 :: t5) hd4
  obtain ⟨hlt5, hget5, hdropS5⟩ := drop_cons_get cd _ m5 t5 hq5
  have hrest5 : t5 ≠ [] := by rw [ht5]; simp
  rw [extractLoop_openStep cd _ eof 4
    (0 + x0.length + 1 + x1.length + 1 + x2.length + 1 + x3.length + 1 + x4.length) _ _
    p5 m5 t5 hp5 hq5 hrest5 hs5 hne5]
  have hd5 : cd.drop
      (0 + x0.length + 1 + x1.length + 1 + x2.length + 1 + x3.length + 1 + x4.length + 1) =
      x5 ++ (m6 :: x6) := by
    rw [hdropS5]
  rw [extractLoop_segment cd _ eof 4
    (0 + x0.length + 1 + x1.length + 1 + x2.length + 1 + x3.length + 1 + x4.length + 1)
    x5 m6 x6 p5 p6 _ hp5 hp6 (by simp) hd5 hx5 he6 (by omega)]
  have hq6 : cd.drop
      (0 + x0.length + 1 + x1.length + 1 + x2.length + 1 + x3.length + 1 + x4.length + 1 +
        x5.length) = m6 :: x6 :=
    drop_through cd
      (0 + x0.length + 1 + x1.length + 1 + x2.length + 1 + x3.length + 1 + x4.length + 1)
      x5 (m6 :: x6) hd5
  rw [extractLoop_openEofStep cd _ eof 5
    (0 + x0.length + 1 + x1.length + 1 + x2.length + 1 + x3.length + 1 + x4.length + 1 +
      x5.length) _ _ p6 m6 x6 hp6 hq6 hs6 heq6]
  simp

/-- C1, amended: for every log whose line sequence contains a complete,
well-ordered boundary sequence, `extract_segments` returns exactly six
segments; each of the first five segments contains the lines strictly
between its start marker line and its end marker line EXCEPT the line
immediately preceding the end marker (the close uses the slice
`[start+1 : end-1]`, dropping the segment's final line), while the sixth,
EOF-delimited segment contains all lines after its start marker; no
segment ever includes a marker line itself. -/
theorem extract_segments_complete
    (x0 x1 x2 x3 x4 x5 x6 : List Line) (m1 m2 m3 m4 m5 m6 : Line)
    (p1 p2 p3 p4 p5 p6 : Line × Line) (eof : Line)
    (heq6 : p6.2 = eof)
    (hne1 : p1.2 ≠ eof) (hne2 : p2.2 ≠ eof) (hne3 : p3.2 ≠ eof)
    (hne4 : p4.2 ≠ eof) (hne5 : p5.2 ≠ eof)
    (hs1 : pyStartsWith m1 p1.1 = true)
    (he2 : pyStartsWith m2 p1.2 = true) (hs2 : pyStartsWith m2 p2.1 = true)
    (he3 : pyStartsWith m3 p2.2 = true) (hs3 : pyStartsWith m3 p3.1 = true)
    (he4 : pyStartsWith m4 p3.2 = true) (hs4 : pyStartsWith m4 p4.1 = true)
    (he5 : pyStartsWith m5 p4.2 = true) (hs5 : pyStartsWith m5 p5.1 = true)
    (he6 : pyStartsWith m6 p5.2 = true) (hs6 : pyStartsWith m6 p6.1 = true)
    (hx0 : ∀ l ∈ x0, pyStartsWith l p1.1 = false)
    (hx1 : ∀ l ∈ x1, pyStartsWith l p1.2 = false)
    (hx2 : ∀ l ∈ x2, pyStartsWith l p2.2 = false)
    (hx3 : ∀ l ∈ x3, pyStartsWith l p3.2 = false)
    (hx4 : ∀ l ∈ x4, pyStartsWith l p4.2 = false)
    (hx5 : ∀ l ∈ x5, pyStartsWith l p5.2 = false) :
    extract_segments
      (x0 ++ m1 :: (x1 ++ m2 :: (x2 ++ m3 :: (x3 ++ m4 :: (x4 ++ m5 :: (x5 ++ m6 :: x6))))))
      [p1, p2, p3, p4, p5, p6] eof =
    some [x1.dropLast, x2.dropLast, x3.dropLast, x4.dropLast, x5.dropLast, x6] :=
  extractStructured x0 x1 x2 x3 x4 x5 x6 m1 m2 m3 m4 m5 m6 p1 p2 p3 p4 p5 p6 eof
    heq6 hne1 hne2 hne3 hne4 hne5 hs1 he2 hs2 he3 hs3 he4 hs4 he5 hs5 he6 hs6
    hx0 hx1 hx2 hx3 hx4 hx5

/-- C1 witness: a standard log with all six boundary markers present: the
callstack-free segments are empty, the first segment loses its final line
`b`, the plugins segment keeps all its lines. -/
theorem extract_segments_complete_witness :
    extract_segments
      ["hdr".data, "\t[Compatibility]".data, "a".data, "b".data, "SYSTEM SPECS:".data,
       "c".data, "PROBABLE CALL STACK:".data, "MODULES:".data, "F4SE PLUGINS:".data,
       "PLUGINS:".data, "p1".data, "p2".data]
      (segmentBoundaries "F4SE".data) "EOF".data =
      some [["a".data], [], [], [], [], ["p1".data, "p2".data]] := by
  have h := extract_segments_complete
    ["hdr".data] ["a".data, "b".data] ["c".data] [] [] [] ["p1".data, "p2".data]
    "\t[Compatibility]".data "SYSTEM SPECS:".data "PROBABLE CALL STACK:".data
    "MODULES:".data "F4SE PLUGINS:".data "PLUGINS:".data
    ("\t[Compatibility]".data, "SYSTEM SPECS:".data)
    ("SYSTEM SPECS:".data, "PROBABLE CALL STACK:".data)
    ("PROBABLE CALL STACK:".data, "MODULES:".data)
    ("MODULES:".data, "F4SE PLUGINS:".data)
    ("F4SE PLUGINS:".data, "PLUGINS:".data)
    ("PLUGINS:".data, "EOF".data) "EOF".data
    rfl (by decide) (by decide) (by decide) (by decide) (by decide)
    (by decide) (by decide) (by decide) (by decide) (by decide) (by decide)
    (by decide) (by decide) (by decide) (by decide) (by decide)
    (by decide) (by decide) (by decide) (by decide) (by decide) (by decide)
  exact h

/-- C1, counterexample: with pair 1 delimited by `A`/`B` and content
`x, y`, the code returns the first segment as `[x]` — the line `y`
immediately preceding the end marker is dropped — while the claim's
"exactly the lines strictly between the markers" demands `[x, y]`. -/
theorem extract_segments_strictly_between_false :
    extract_segments
        ["A".data, "x".data, "y".data, "B".data, "C".data, "D".data, "E".data, "F".data,
         "g".data]
        [("A".data, "B".data), ("B".data, "C".data), ("C".data, "D".data),
         ("D".data, "E".data), ("E".data, "F".data), ("F".data, "EOF".data)] "EOF".data =
      some [["x".data], [], [], [], [], ["g".data]] ∧
    (["x".data] : List Line) ≠ ["x".data, "y".data] := by
  constructor
  · have h := extractStructured [] ["x".data, "y".data] [] [] [] [] ["g".data]
      "A".data "B".data "C".data "D".data "E".data "F".data
      ("A".data, "B".data) ("B".data, "C".data) ("C".data, "D".data)
      ("D".data, "E".data) ("E".data, "F".data) ("F".data, "EOF".data) "EOF".data
      rfl (by decide) (by decide) (by decide) (by decide) (by decide)
      (by decide) (by decide) (by decide) (by decide) (by decide) (by decide)
      (by decide) (by decide) (by decide) (by decide) (by decide)
      (by decide) (by decide) (by decide) (by decide) (by decide) (by decide)
    exact h
  · decide

end Classic
